import Mathlib

/-!
Verification development for the chat gateway of the `chatApp` repository.

The gateway (`ChatGateway` in `chat.gateway.ts`) keeps three in-memory
maps — `connectedUsers : socketId → username`, `typingUsers : username →
set of recipients`, `tempUploads : uploadId → upload session` — and talks
to a durable store of users and private messages.  We embed the gateway
state and every event handler as executable Lean functions.  JavaScript
`Map` objects are modelled as association lists in insertion order
(`Map.set` updates in place, `Map.delete` removes, iteration follows
insertion order), JavaScript arrays with holes (as produced by
`arr[i] = v` past the end) are modelled as `List (Option _)`, and the
Mongo collections are modelled as lists of records.  Timestamps
(`Date.now()` / `new Date()`) and the randomly generated upload
identifiers enter the handlers as explicit parameters.  Base64 decoding
of chunk payloads is abstracted: a chunk arrives as its decoded byte
list.  Asynchronous store calls are modelled as synchronous state
transformations, matching the single-threaded event-loop reading of the
source.
-/

/-- Bytes of a file chunk (`Buffer` contents). -/
abbrev Bytes := List Nat

/-- One document of the `PrivateMessage` Mongo collection
(`private-message.schema.ts`); the fields the gateway never touches
(reactions, likes, voice data) are omitted. -/
structure PrivateMessage where
  id : Nat
  sender : String
  receiver : String
  content : String
  isRead : Bool
  isDelivered : Bool
  timestamp : Nat
  deliveredAt : Option Nat
  readAt : Option Nat
  fileUrl : Option String
  fileName : Option String
  fileType : Option String
  fileSize : Option Nat
deriving DecidableEq, Repr

/-- One document of the room-message `Message` collection
(referenced by `handleMessage`; schema file not part of the gateway). -/
structure RoomMessage where
  id : Nat
  sender : String
  content : String
  room : String
deriving DecidableEq, Repr

/-- One document of the `User` collection (`user.schema.ts`). -/
structure User where
  username : String
  password : String
  isOnline : Bool
  lastSeen : Nat
  createdAt : Nat
deriving DecidableEq, Repr

/-- A user record as emitted with the `{ password: 0 }` projection:
the same fields as `User` minus the password. -/
structure PublicUser where
  username : String
  isOnline : Bool
  lastSeen : Nat
  createdAt : Nat
deriving DecidableEq, Repr

/-- The `{ password: 0 }` projection used by `broadcastUserList` and
`handleSearchUsers`. -/
def toPublic (u : User) : PublicUser :=
  { username := u.username, isOnline := u.isOnline,
    lastSeen := u.lastSeen, createdAt := u.createdAt }

/-- State of one chunked upload: `{ chunks: Buffer[], totalChunks }`
as stored in `tempUploads`.  `chunks` is a JavaScript array written at
arbitrary indices, hence a list of optional buffers (holes are `none`). -/
structure UploadSession where
  chunks : List (Option Bytes)
  totalChunks : Nat
deriving DecidableEq, Repr

/-- Payload of an `uploadChunk` event; `chunk` is the decoded byte
content of the base64 body. -/
structure ChunkPayload where
  uploadId : String
  chunk : Bytes
  chunkIndex : Nat
  receiver : String
  fileName : String
  fileType : String
  fileSize : Nat
deriving DecidableEq, Repr

/-- Outbound events emitted by the gateway. -/
inductive Event where
  | userList (records : List PublicUser)
  | newMessage (m : RoomMessage)
  | newPrivateMessage (m : PrivateMessage)
  | messageDelivered (messageId : Nat)
  | messageRead (messageId : Nat) (readAt : Nat)
  | privateMessages (ms : List PrivateMessage)
  | searchResults (records : List PublicUser)
  | userTyping (username : String)
  | userStoppedTyping (username : String)
  | uploadStarted (uploadId : String)
  | chunkReceived (uploadId : String) (chunkIndex : Nat)
  | uploadError (msg : String) (uploadId : Option String)
  | uploadCancelled (uploadId : String)
deriving DecidableEq, Repr

/-- An emission together with its target: a single socket
(`server.to(socketId).emit` / `client.emit`), a room, or a broadcast
(`server.emit`). -/
inductive Emit where
  | toSocket (sid : String) (e : Event)
  | toRoom (room : String) (e : Event)
  | broadcast (e : Event)
deriving DecidableEq, Repr

/-- `Map.get`: value of the first (and, for states built by
`set`/`delete`, only) entry with the given key. -/
def jsMapGet : List (String × α) → String → Option α
  | [], _ => none
  | p :: m, k => if p.1 = k then some p.2 else jsMapGet m k

/-- `Map.set`: update the value in place if the key is present
(keeping its position), else append a new entry. -/
def jsMapSet : List (String × α) → String → α → List (String × α)
  | [], k, v => [(k, v)]
  | p :: m, k, v => if p.1 = k then (k, v) :: m else p :: jsMapSet m k v

/-- `Map.delete`: remove the entry with the given key if present. -/
def jsMapDelete : List (String × α) → String → List (String × α)
  | [], _ => []
  | p :: m, k => if p.1 = k then jsMapDelete m k else p :: jsMapDelete m k

/-- `Map.has`. -/
def jsMapHas (m : List (String × α)) (k : String) : Bool :=
  (jsMapGet m k).isSome

/-- `Set.add` on a JavaScript `Set`, modelled as a duplicate-free list
in insertion order. -/
def jsSetAdd (s : List String) (x : String) : List String :=
  if x ∈ s then s else s ++ [x]

/-- `Set.delete`. -/
def jsSetDelete : List String → String → List String
  | [], _ => []
  | y :: s, x => if y = x then jsSetDelete s x else y :: jsSetDelete s x

theorem jsMapGet_cons (p : String × α) (m : List (String × α)) (k : String) :
    jsMapGet (p :: m) k = if p.1 = k then some p.2 else jsMapGet m k := rfl

theorem jsMapSet_cons (p : String × α) (m : List (String × α)) (k : String) (v : α) :
    jsMapSet (p :: m) k v = if p.1 = k then (k, v) :: m else p :: jsMapSet m k v := rfl

theorem jsMapDelete_cons (p : String × α) (m : List (String × α)) (k : String) :
    jsMapDelete (p :: m) k
      = if p.1 = k then jsMapDelete m k else p :: jsMapDelete m k := rfl

theorem jsSetDelete_cons (y : String) (s : List String) (x : String) :
    jsSetDelete (y :: s) x
      = if y = x then jsSetDelete s x else y :: jsSetDelete s x := rfl

/-- `arr[i] = v` on a JavaScript array: in-range indices are
overwritten, out-of-range indices extend the array, filling the gap
with holes (`none`). -/
def jsArraySet (l : List (Option α)) (i : Nat) (x : α) : List (Option α) :=
  if i < l.length then l.set i (some x)
  else l ++ (List.replicate (i - l.length) none ++ [some x])

/-- The inline socket lookup
`Array.from(this.connectedUsers.entries()).find(([_, u]) => u === username)?.[0]`:
first entry (in insertion order) whose value is the username. -/
def findConnection (m : List (String × String)) (username : String) : Option String :=
  (m.find? (fun p => p.2 == username)).map Prod.fst

/-- `privateMessageModel.findById`. -/
def findById (db : List PrivateMessage) (mid : Nat) : Option PrivateMessage :=
  db.find? (fun m => m.id == mid)

/-- `message.save()` on an existing document: replace the document(s)
with the same id. -/
def saveById (db : List PrivateMessage) (m2 : PrivateMessage) : List PrivateMessage :=
  db.map (fun m => if m.id == m2.id then m2 else m)

/-- `updateMany({_id: {$in: ids}}, {$set: {isDelivered: true, deliveredAt: now}})`. -/
def updateManyDelivered (db : List PrivateMessage) (ids : List Nat) (now : Nat) :
    List PrivateMessage :=
  db.map (fun m => if ids.contains m.id then
    { m with isDelivered := true, deliveredAt := some now } else m)

/-- `userModel.findOneAndUpdate({username}, upd)`: update the first
matching document. -/
def updateFirstUser (p : User → Bool) (f : User → User) : List User → List User
  | [] => []
  | u :: us => if p u then f u :: us else u :: updateFirstUser p f us

/-- Whether `needle` starts `hay` (characters compared one by one). -/
def charsLeadWith : List Char → List Char → Bool
  | [], _ => true
  | _ :: _, [] => false
  | a :: as, b :: bs => a == b && charsLeadWith as bs

/-- Whether `needle` occurs contiguously inside `hay`. -/
def charsContain (needle : List Char) : List Char → Bool
  | [] => charsLeadWith needle []
  | b :: bs => charsLeadWith needle (b :: bs) || charsContain needle bs

/-- Model of the Mongo filter `{username: {$regex: query, $options: 'i'}}`
for a literal query string: case-insensitive substring match. -/
def regexMatchI (query username : String) : Bool :=
  charsContain (query.toLower.toList) (username.toLower.toList)

/-- `Buffer.concat(chunks)`: fails (throws) when the array has a hole,
otherwise concatenates in index order. -/
def bufferConcat (chunks : List (Option Bytes)) : Option Bytes :=
  if chunks.all Option.isSome then some (chunks.filterMap id).flatten else none

/-- Sanitization `fileName.replace(/[^a-zA-Z0-9.-]/g, '_')`. -/
def sanitizeFileName (s : String) : String :=
  String.mk (s.toList.map (fun c =>
    if c.isAlphanum || c == '.' || c == '-' then c else '_'))

/-- `filter(Boolean).length` over the chunk array: Buffers are always
truthy, holes are skipped, so this counts populated slots. -/
def populatedCount (chunks : List (Option Bytes)) : Nat :=
  (chunks.filterMap id).length

/-- The whole mutable state of `ChatGateway` together with its durable
collaborators: the three in-memory maps, the room-membership relation of
the transport, the Mongo collections, the written files, and the id
source for freshly created documents. -/
structure GatewayState where
  connectedUsers : List (String × String)
  typingUsers : List (String × List String)
  tempUploads : List (String × UploadSession)
  rooms : List (String × List String)
  userDb : List User
  roomMessageDb : List RoomMessage
  privateMessageDb : List PrivateMessage
  files : List (String × Bytes)
  nextId : Nat
deriving DecidableEq, Repr

/-- `broadcastUserList`: `userModel.find({}, {password: 0})` then
`server.emit('userList', users)`. -/
def broadcastUserList (db : List User) : Emit :=
  Emit.broadcast (Event.userList (db.map toPublic))

/-- `handleConnection`: register the socket, reset the user's typing
set, mark the user online, broadcast the user list. -/
def handleConnection (s : GatewayState) (sid username : String) (now : Nat) :
    GatewayState × List Emit :=
  let s1 := { s with
    connectedUsers := jsMapSet s.connectedUsers sid username,
    typingUsers := jsMapSet s.typingUsers username [],
    userDb := updateFirstUser (fun u => u.username == username)
      (fun u => { u with isOnline := true, lastSeen := now }) s.userDb }
  (s1, [broadcastUserList s1.userDb])

/-- `handleDisconnect`: if the socket is registered, mark the user
offline, drop both map entries, broadcast the user list. -/
def handleDisconnect (s : GatewayState) (sid : String) (now : Nat) :
    GatewayState × List Emit :=
  match jsMapGet s.connectedUsers sid with
  | some username =>
    let s1 := { s with
      userDb := updateFirstUser (fun u => u.username == username)
        (fun u => { u with isOnline := false, lastSeen := now }) s.userDb,
      connectedUsers := jsMapDelete s.connectedUsers sid,
      typingUsers := jsMapDelete s.typingUsers username }
    (s1, [broadcastUserList s1.userDb])
  | none => (s, [])

/-- `handleJoinRoom`: `client.join(room)`. -/
def handleJoinRoom (s : GatewayState) (sid room : String) :
    GatewayState × List Emit :=
  let members := (jsMapGet s.rooms room).getD []
  ({ s with rooms := jsMapSet s.rooms room (jsSetAdd members sid) }, [])

/-- `handleLeaveRoom`: `client.leave(room)`. -/
def handleLeaveRoom (s : GatewayState) (sid room : String) :
    GatewayState × List Emit :=
  let members := (jsMapGet s.rooms room).getD []
  ({ s with rooms := jsMapSet s.rooms room (jsSetDelete members sid) }, [])

/-- `handleMessage` (room message): create the document, emit
`newMessage` to the room. -/
def handleMessage (s : GatewayState) (sender room content : String) :
    GatewayState × List Emit :=
  let msg : RoomMessage :=
    { id := s.nextId, sender := sender,
      content := content, room := room }
  ({ s with roomMessageDb := s.roomMessageDb ++ [msg], nextId := s.nextId + 1 },
   [Emit.toRoom room (Event.newMessage msg)])

/-- `handleStopTyping`: drop the recipient from the sender's typing
set, then notify the recipient's socket (if reachable) with
`userStoppedTyping`. -/
def handleStopTyping (s : GatewayState) (sender receiver : String) :
    GatewayState × List Emit :=
  let tu := match jsMapGet s.typingUsers sender with
    | some set => jsMapSet s.typingUsers sender (jsSetDelete set receiver)
    | none => s.typingUsers
  let s1 := { s with typingUsers := tu }
  match findConnection s1.connectedUsers receiver with
  | some rsock => (s1, [Emit.toSocket rsock (Event.userStoppedTyping sender)])
  | none => (s1, [])

/-- `handleTyping`: ensure the sender has a typing set, add the
recipient, notify the recipient's socket (if reachable) with
`userTyping`. -/
def handleTyping (s : GatewayState) (sender receiver : String) :
    GatewayState × List Emit :=
  let tu0 := if jsMapHas s.typingUsers sender then s.typingUsers
    else jsMapSet s.typingUsers sender []
  let tu := match jsMapGet tu0 sender with
    | some set => jsMapSet tu0 sender (jsSetAdd set receiver)
    | none => tu0
  let s1 := { s with typingUsers := tu }
  match findConnection s1.connectedUsers receiver with
  | some rsock => (s1, [Emit.toSocket rsock (Event.userTyping sender)])
  | none => (s1, [])

/-- `handlePrivateMessage`: create the message (undelivered, unread);
if the receiver has a live socket, push it there, mark it delivered and
acknowledge delivery to the sender; always echo it to the sender; then
run the stop-typing path for the pair. -/
def handlePrivateMessage (s : GatewayState) (sid sender receiver content : String)
    (now : Nat) : GatewayState × List Emit :=
  let msg : PrivateMessage :=
    { id := s.nextId, sender := sender,
      receiver := receiver, content := content, isRead := false,
      isDelivered := false, timestamp := now, deliveredAt := none,
      readAt := none, fileUrl := none, fileName := none, fileType := none,
      fileSize := none }
  let s1 :=
    { s with
      privateMessageDb := s.privateMessageDb ++ [msg]
      nextId := s.nextId + 1 }
  match findConnection s1.connectedUsers receiver with
  | some rsock =>
    let msg2 := { msg with isDelivered := true, deliveredAt := some now }
    let s2 := { s1 with privateMessageDb := saveById s1.privateMessageDb msg2 }
    let evs := [Emit.toSocket rsock (Event.newPrivateMessage msg),
      Emit.toSocket sid (Event.messageDelivered msg.id),
      Emit.toSocket sid (Event.newPrivateMessage msg2)]
    let r := handleStopTyping s2 sender receiver
    (r.1, evs ++ r.2)
  | none =>
    let evs := [Emit.toSocket sid (Event.newPrivateMessage msg)]
    let r := handleStopTyping s1 sender receiver
    (r.1, evs ++ r.2)

/-- `handleMarkMessageAsRead`: guarded only by existence of the message
and the caller being its receiver; sets `isRead`/`readAt` and notifies
the sender's socket if reachable; otherwise does nothing. -/
def handleMarkMessageAsRead (s : GatewayState) (caller : String) (messageId : Nat)
    (now : Nat) : GatewayState × List Emit :=
  match findById s.privateMessageDb messageId with
  | some msg =>
    if msg.receiver == caller then
      let msg2 := { msg with isRead := true, readAt := some now }
      let s1 := { s with privateMessageDb := saveById s.privateMessageDb msg2 }
      match findConnection s1.connectedUsers msg.sender with
      | some ssock => (s1, [Emit.toSocket ssock (Event.messageRead msg2.id now)])
      | none => (s1, [])
    else (s, [])
  | none => (s, [])

/-- The conversation filter
`$or: [{sender: caller, receiver: other}, {sender: other, receiver: caller}]`. -/
def inConversation (caller other : String) (m : PrivateMessage) : Bool :=
  (m.sender == caller && m.receiver == other) ||
  (m.sender == other && m.receiver == caller)

/-- `handleGetPrivateMessages`: fetch the conversation sorted by
timestamp; mark every still-undelivered message addressed to the caller
delivered in one `updateMany`; notify each affected message's sender if
reachable; finally emit the (as-fetched) message list to the caller. -/
def handleGetPrivateMessages (s : GatewayState) (sid caller other : String)
    (now : Nat) : GatewayState × List Emit :=
  let messages := (s.privateMessageDb.filter (inConversation caller other)).mergeSort
    (fun a b => a.timestamp ≤ b.timestamp)
  let unread := messages.filter (fun m => !m.isDelivered && m.receiver == caller)
  if unread.isEmpty then
    (s, [Emit.toSocket sid (Event.privateMessages messages)])
  else
    let s1 := { s with privateMessageDb :=
      updateManyDelivered s.privateMessageDb (unread.map (fun m => m.id)) now }
    let evs := unread.filterMap (fun m =>
      (findConnection s1.connectedUsers m.sender).map
        (fun ssock => Emit.toSocket ssock (Event.messageDelivered m.id)))
    (s1, evs ++ [Emit.toSocket sid (Event.privateMessages messages)])

/-- `handleSearchUsers`: regex search over usernames with the
`{password: 0}` projection, emitted only to the caller. -/
def handleSearchUsers (s : GatewayState) (sid query : String) :
    GatewayState × List Emit :=
  (s, [Emit.toSocket sid (Event.searchResults
    ((s.userDb.filter (fun u => regexMatchI query u.username)).map toPublic))])

/-- `handleStartFileUpload`: allocate a fresh session with an empty
chunk array; the generated upload identifier is a parameter. -/
def handleStartFileUpload (s : GatewayState) (sid uploadId : String)
    (totalChunks : Nat) : GatewayState × List Emit :=
  let session : UploadSession := { chunks := [], totalChunks := totalChunks }
  ({ s with tempUploads := jsMapSet s.tempUploads uploadId session },
   [Emit.toSocket sid (Event.uploadStarted uploadId)])

/-- `handleUploadChunk`: store the chunk at its index; when the count of
populated slots reaches `totalChunks`, concatenate (which fails on a
hole), write the file, create and send the file-backed message exactly
as `handlePrivateMessage` does, and discard the session; every thrown
error is caught and reported as `uploadError`; otherwise the chunk is
acknowledged with `chunkReceived`. -/
def handleUploadChunk (s : GatewayState) (sid sender : String) (p : ChunkPayload)
    (now : Nat) : GatewayState × List Emit :=
  match jsMapGet s.tempUploads p.uploadId with
  | none =>
    (s, [Emit.toSocket sid (Event.uploadError "Failed to upload chunk" (some p.uploadId))])
  | some upload =>
    let chunks := jsArraySet upload.chunks p.chunkIndex p.chunk
    let session2 : UploadSession := { upload with chunks := chunks }
    let s1 := { s with tempUploads := jsMapSet s.tempUploads p.uploadId session2 }
    if populatedCount chunks == upload.totalChunks then
      match bufferConcat chunks with
      | none =>
        (s1, [Emit.toSocket sid (Event.uploadError "Failed to upload chunk" (some p.uploadId))])
      | some fileData =>
        let safeFileName := toString now ++ "-" ++ sanitizeFileName p.fileName
        let s2 := { s1 with files := s1.files ++ [(safeFileName, fileData)] }
        let msg : PrivateMessage :=
          { id := s2.nextId, sender := sender,
            receiver := p.receiver, content := "Shared a file: " ++ p.fileName,
            isRead := false, isDelivered := false, timestamp := now,
            deliveredAt := none, readAt := none,
            fileUrl := some ("/uploads/" ++ safeFileName),
            fileName := some p.fileName, fileType := some p.fileType,
            fileSize := some p.fileSize }
        let s3 :=
          { s2 with
            privateMessageDb := s2.privateMessageDb ++ [msg]
            nextId := s2.nextId + 1 }
        let r := match findConnection s3.connectedUsers p.receiver with
          | some rsock =>
            let msg2 := { msg with isDelivered := true, deliveredAt := some now }
            ({ s3 with privateMessageDb := saveById s3.privateMessageDb msg2 },
             [Emit.toSocket rsock (Event.newPrivateMessage msg),
              Emit.toSocket sid (Event.messageDelivered msg.id),
              Emit.toSocket sid (Event.newPrivateMessage msg2)])
          | none => (s3, [Emit.toSocket sid (Event.newPrivateMessage msg)])
        let s4 := { r.1 with tempUploads := jsMapDelete r.1.tempUploads p.uploadId }
        (s4, r.2 ++ [Emit.toSocket sid (Event.chunkReceived p.uploadId p.chunkIndex)])
    else
      (s1, [Emit.toSocket sid (Event.chunkReceived p.uploadId p.chunkIndex)])

/-- `handleCancelUpload`: unconditionally discard the session and
acknowledge cancellation. -/
def handleCancelUpload (s : GatewayState) (sid uploadId : String) :
    GatewayState × List Emit :=
  ({ s with tempUploads := jsMapDelete s.tempUploads uploadId },
   [Emit.toSocket sid (Event.uploadCancelled uploadId)])

/-- One inbound event of the gateway, carrying the caller's socket id
and (where the handler reads `client.data.user.username`) the caller's
authenticated username. -/
inductive Op where
  | connect (sid username : String) (now : Nat)
  | disconnect (sid : String) (now : Nat)
  | joinRoom (sid room : String)
  | leaveRoom (sid room : String)
  | sendMessage (sid sender room content : String)
  | sendPrivateMessage (sid sender receiver content : String) (now : Nat)
  | markMessageAsRead (sid caller : String) (messageId : Nat) (now : Nat)
  | getPrivateMessages (sid caller other : String) (now : Nat)
  | searchUsers (sid query : String)
  | typing (sid sender receiver : String)
  | stopTyping (sid sender receiver : String)
  | startFileUpload (sid uploadId : String) (totalChunks : Nat)
  | uploadChunk (sid sender : String) (p : ChunkPayload) (now : Nat)
  | cancelUpload (sid uploadId : String)
deriving DecidableEq, Repr

/-- Dispatcher: route one inbound event to its handler. -/
def step (s : GatewayState) : Op → GatewayState × List Emit
  | .connect sid u now => handleConnection s sid u now
  | .disconnect sid now => handleDisconnect s sid now
  | .joinRoom sid room => handleJoinRoom s sid room
  | .leaveRoom sid room => handleLeaveRoom s sid room
  | .sendMessage _ sender room content => handleMessage s sender room content
  | .sendPrivateMessage sid sender receiver content now =>
      handlePrivateMessage s sid sender receiver content now
  | .markMessageAsRead _ caller mid now => handleMarkMessageAsRead s caller mid now
  | .getPrivateMessages sid caller other now =>
      handleGetPrivateMessages s sid caller other now
  | .searchUsers sid q => handleSearchUsers s sid q
  | .typing _ sender receiver => handleTyping s sender receiver
  | .stopTyping _ sender receiver => handleStopTyping s sender receiver
  | .startFileUpload sid uid n => handleStartFileUpload s sid uid n
  | .uploadChunk sid sender p now => handleUploadChunk s sid sender p now
  | .cancelUpload sid uid => handleCancelUpload s sid uid

/-- State after one inbound event. -/
def applyOp (s : GatewayState) (op : Op) : GatewayState := (step s op).1

/-- State after a sequence of inbound events. -/
def runOps (s : GatewayState) (ops : List Op) : GatewayState :=
  ops.foldl applyOp s

/-- A gateway state as it exists right after boot: empty in-memory
maps, arbitrary durable collections. -/
def bootState (users : List User) (roomMsgs : List RoomMessage)
    (privMsgs : List PrivateMessage) (nextId : Nat) : GatewayState :=
  { connectedUsers := [], typingUsers := [], tempUploads := [], rooms := [],
    userDb := users, roomMessageDb := roomMsgs, privateMessageDb := privMsgs,
    files := [], nextId := nextId }

/-! ### Generic lemmas about the JavaScript collection model -/

/-- Keys of an association list are duplicate-free (true of every state
of a JavaScript `Map`). -/
def keysNodup (m : List (String × α)) : Prop :=
  (m.map Prod.fst).Nodup

theorem jsMapSet_mem_cases (m : List (String × α)) (k : String) (v : α)
    (q : String × α) (hq : q ∈ jsMapSet m k v) : q ∈ m ∨ q = (k, v) := by
  induction m with
  | nil => simpa [jsMapSet] using hq
  | cons p m ih =>
    unfold jsMapSet at hq
    by_cases hp : p.1 = k
    · rw [if_pos hp] at hq
      rcases List.mem_cons.mp hq with h1 | h1
      · exact Or.inr h1
      · exact Or.inl (List.mem_cons_of_mem p h1)
    · rw [if_neg hp] at hq
      rcases List.mem_cons.mp hq with h1 | h1
      · exact Or.inl (h1 ▸ List.mem_cons_self p m)
      · rcases ih h1 with h2 | h2
        · exact Or.inl (List.mem_cons_of_mem p h2)
        · exact Or.inr h2

theorem jsMapDelete_subset (m : List (String × α)) (k : String)
    (q : String × α) (hq : q ∈ jsMapDelete m k) : q ∈ m := by
  induction m with
  | nil => exact hq
  | cons p m ih =>
    unfold jsMapDelete at hq
    by_cases hp : p.1 = k
    · rw [if_pos hp] at hq
      exact List.mem_cons_of_mem p (ih hq)
    · rw [if_neg hp] at hq
      rcases List.mem_cons.mp hq with h1 | h1
      · exact h1 ▸ List.mem_cons_self p m
      · exact List.mem_cons_of_mem p (ih h1)

theorem jsMapGet_of_mem_nodup (m : List (String × α)) (p : String × α)
    (hnd : keysNodup m) (hmem : p ∈ m) : jsMapGet m p.1 = some p.2 := by
  induction m with
  | nil => cases hmem
  | cons q m ih =>
    unfold keysNodup at hnd
    simp only [List.map_cons, List.nodup_cons] at hnd
    rcases List.mem_cons.mp hmem with h1 | h1
    · subst h1
      unfold jsMapGet
      rw [if_pos rfl]
    · unfold jsMapGet
      by_cases hq : q.1 = p.1
      · exact absurd (hq ▸ List.mem_map_of_mem Prod.fst h1) hnd.1
      · rw [if_neg hq]
        exact ih hnd.2 h1

theorem keysNodup_jsMapSet (m : List (String × α)) (k : String) (v : α)
    (h : keysNodup m) : keysNodup (jsMapSet m k v) := by
  induction m with
  | nil => simp [jsMapSet, keysNodup]
  | cons p m ih =>
    unfold keysNodup at h
    simp only [List.map_cons, List.nodup_cons] at h
    by_cases hp : p.1 = k
    · unfold jsMapSet keysNodup
      rw [if_pos hp]
      simp only [List.map_cons, List.nodup_cons]
      exact ⟨by rw [← hp]; exact h.1, h.2⟩
    · unfold jsMapSet keysNodup
      rw [if_neg hp]
      simp only [List.map_cons, List.nodup_cons]
      constructor
      · intro hmem
        rcases List.mem_map.mp hmem with ⟨q, hq, hfst⟩
        rcases (jsMapSet_mem_cases m k v q hq) with hq2 | hq2
        · exact h.1 (hfst ▸ List.mem_map_of_mem Prod.fst hq2)
        · exact hp (by rw [← hfst, hq2])
      · exact ih h.2

theorem keysNodup_jsMapDelete (m : List (String × α)) (k : String)
    (h : keysNodup m) : keysNodup (jsMapDelete m k) := by
  induction m with
  | nil => exact h
  | cons p m ih =>
    unfold keysNodup at h
    simp only [List.map_cons, List.nodup_cons] at h
    unfold jsMapDelete
    by_cases hp : p.1 = k
    · rw [if_pos hp]
      exact ih h.2
    · rw [if_neg hp]
      unfold keysNodup
      simp only [List.map_cons, List.nodup_cons]
      refine ⟨?_, ih h.2⟩
      intro hmem
      rcases List.mem_map.mp hmem with ⟨q, hq, hfst⟩
      exact h.1 (hfst ▸ List.mem_map_of_mem Prod.fst (jsMapDelete_subset m k q hq))

/-- Deleting a key makes it unreadable. -/
theorem jsMapGet_delete_self (m : List (String × α)) (k : String) :
    jsMapGet (jsMapDelete m k) k = none := by
  induction m with
  | nil => rfl
  | cons p m ih =>
    by_cases hp : p.1 = k
    · rw [jsMapDelete_cons, if_pos hp]
      exact ih
    · rw [jsMapDelete_cons, if_neg hp, jsMapGet_cons, if_neg hp]
      exact ih

/-- Deleting a key twice is the same as deleting it once. -/
theorem jsMapDelete_idem (m : List (String × α)) (k : String) :
    jsMapDelete (jsMapDelete m k) k = jsMapDelete m k := by
  induction m with
  | nil => rfl
  | cons p m ih =>
    by_cases hp : p.1 = k
    · rw [jsMapDelete_cons, if_pos hp]
      exact ih
    · rw [jsMapDelete_cons, if_neg hp, jsMapDelete_cons, if_neg hp, ih]

/-- On a key-unique map, a successful reverse lookup of a username's
socket followed by the forward lookup of that socket's username returns
the original username. -/
theorem jsMapGet_of_findConnection (m : List (String × String)) (u c : String)
    (hnd : keysNodup m) (hf : findConnection m u = some c) :
    jsMapGet m c = some u := by
  unfold findConnection at hf
  rcases Option.map_eq_some'.mp hf with ⟨p, hfind, hfst⟩
  have hmem : p ∈ m := List.mem_of_find?_eq_some hfind
  have hsnd : p.2 = u := by simpa using List.find?_some hfind
  subst hfst
  subst hsnd
  exact jsMapGet_of_mem_nodup m p hnd hmem

/-! ### Frame lemmas: which handlers touch which state components -/

theorem connectedUsers_handleStopTyping (s : GatewayState) (a b : String) :
    (handleStopTyping s a b).1.connectedUsers = s.connectedUsers := by
  simp only [handleStopTyping]
  split <;> split <;> rfl

theorem connectedUsers_handleTyping (s : GatewayState) (a b : String) :
    (handleTyping s a b).1.connectedUsers = s.connectedUsers := by
  simp only [handleTyping]
  split <;> split <;> rfl

theorem connectedUsers_handlePrivateMessage (s : GatewayState)
    (sid sender receiver content : String) (now : Nat) :
    (handlePrivateMessage s sid sender receiver content now).1.connectedUsers
      = s.connectedUsers := by
  simp only [handlePrivateMessage]
  split <;> rw [connectedUsers_handleStopTyping]

theorem connectedUsers_handleMarkMessageAsRead (s : GatewayState) (caller : String)
    (mid now : Nat) :
    (handleMarkMessageAsRead s caller mid now).1.connectedUsers = s.connectedUsers := by
  simp only [handleMarkMessageAsRead]
  split
  · split
    · split <;> rfl
    · rfl
  · rfl

theorem connectedUsers_handleGetPrivateMessages (s : GatewayState)
    (sid caller other : String) (now : Nat) :
    (handleGetPrivateMessages s sid caller other now).1.connectedUsers
      = s.connectedUsers := by
  simp only [handleGetPrivateMessages]
  split <;> rfl

theorem connectedUsers_handleUploadChunk (s : GatewayState) (sid sender : String)
    (p : ChunkPayload) (now : Nat) :
    (handleUploadChunk s sid sender p now).1.connectedUsers = s.connectedUsers := by
  simp only [handleUploadChunk]
  split
  · rfl
  · split
    · split
      · rfl
      · split <;> rfl
    · rfl

/-- Any single inbound event keeps the connected-users map key-unique. -/
theorem keysNodup_connectedUsers_applyOp (s : GatewayState) (op : Op)
    (h : keysNodup s.connectedUsers) : keysNodup (applyOp s op).connectedUsers := by
  cases op with
  | connect sid u now =>
    simp only [applyOp, step, handleConnection]
    exact keysNodup_jsMapSet _ _ _ h
  | disconnect sid now =>
    simp only [applyOp, step, handleDisconnect]
    cases hu : jsMapGet s.connectedUsers sid with
    | some u => exact keysNodup_jsMapDelete _ _ h
    | none => exact h
  | joinRoom sid room => exact h
  | leaveRoom sid room => exact h
  | sendMessage sid sender room content => exact h
  | sendPrivateMessage sid sender receiver content now =>
    simpa only [applyOp, step, connectedUsers_handlePrivateMessage] using h
  | markMessageAsRead sid caller mid now =>
    simpa only [applyOp, step, connectedUsers_handleMarkMessageAsRead] using h
  | getPrivateMessages sid caller other now =>
    simpa only [applyOp, step, connectedUsers_handleGetPrivateMessages] using h
  | searchUsers sid q => exact h
  | typing sid a b =>
    simpa only [applyOp, step, connectedUsers_handleTyping] using h
  | stopTyping sid a b =>
    simpa only [applyOp, step, connectedUsers_handleStopTyping] using h
  | startFileUpload sid uid n => exact h
  | uploadChunk sid sender p now =>
    simpa only [applyOp, step, connectedUsers_handleUploadChunk] using h
  | cancelUpload sid uid => exact h

/-- Key uniqueness of the connected-users map holds after any event
sequence from boot. -/
theorem keysNodup_connectedUsers_runOps (s : GatewayState) (ops : List Op)
    (h : keysNodup s.connectedUsers) : keysNodup (runOps s ops).connectedUsers := by
  induction ops generalizing s with
  | nil => exact h
  | cons op ops ih =>
    exact ih _ (keysNodup_connectedUsers_applyOp s op h)

/-! ### Claim C9: forward/reverse registry consistency -/

/-- Claim C9: for every sequence of operations applied from boot
(register = `handleConnection`, unregister = `handleDisconnect`, plus
all other gateway events), the presence registry's forward and reverse
lookups stay mutually consistent: if looking up a username yields a
connection identity, looking that identity up yields the original
username. -/
theorem C9_registry_consistent (users : List User) (roomMsgs : List RoomMessage)
    (privMsgs : List PrivateMessage) (nid : Nat) (ops : List Op) (u c : String)
    (hf : findConnection
      (runOps (bootState users roomMsgs privMsgs nid) ops).connectedUsers u = some c) :
    jsMapGet (runOps (bootState users roomMsgs privMsgs nid) ops).connectedUsers c
      = some u := by
  apply jsMapGet_of_findConnection _ _ _ _ hf
  apply keysNodup_connectedUsers_runOps
  exact List.nodup_nil

/-- Witness for C9 at a concrete operation sequence. -/
theorem C9_registry_consistent_witness :
    findConnection (runOps (bootState [] [] [] 0)
      [Op.connect "s1" "alice" 0, Op.connect "s2" "bob" 1]).connectedUsers "bob"
        = some "s2" ∧
    jsMapGet (runOps (bootState [] [] [] 0)
      [Op.connect "s1" "alice" 0, Op.connect "s2" "bob" 1]).connectedUsers "s2"
        = some "bob" :=
  ⟨by decide, C9_registry_consistent [] [] [] 0 _ "bob" "s2" (by decide)⟩

/-! ### Claim C2: one connection per username? -/

/-- Claim C2 is refuted at a concrete input: the registry is keyed by
connection identity, so when `register` runs for a username that
already has a different live connection the two entries coexist — the
new one does not supersede the old one — and the forward lookup keeps
returning the older connection. -/
theorem C2_counterexample :
    ("s1", "alice") ∈ (runOps (bootState [] [] [] 0)
        [Op.connect "s1" "alice" 0, Op.connect "s2" "alice" 1]).connectedUsers ∧
    ("s2", "alice") ∈ (runOps (bootState [] [] [] 0)
        [Op.connect "s1" "alice" 0, Op.connect "s2" "alice" 1]).connectedUsers ∧
    findConnection (runOps (bootState [] [] [] 0)
        [Op.connect "s1" "alice" 0, Op.connect "s2" "alice" 1]).connectedUsers "alice"
      = some "s1" := by
  decide

/-- Setting a key absent from the map appends the new entry. -/
theorem jsMapSet_fresh (m : List (String × α)) (k : String) (v : α)
    (h : ∀ p ∈ m, p.1 ≠ k) : jsMapSet m k v = m ++ [(k, v)] := by
  induction m with
  | nil => rfl
  | cons p m ih =>
    rw [jsMapSet_cons, if_neg (h p (List.mem_cons_self p m)),
      ih (fun q hq => h q (List.mem_cons_of_mem p hq))]
    rfl

/-- Amended C2: registering a username that already has a different
live connection raises no uniqueness error; the old entry is kept and
the new entry is added alongside it (coexistence, last entry appended). -/
theorem C2_register_coexists (s : GatewayState) (sid0 sid1 u : String) (now : Nat)
    (h0 : (sid0, u) ∈ s.connectedUsers)
    (h1 : ∀ p ∈ s.connectedUsers, p.1 ≠ sid1) :
    (sid0, u) ∈ (handleConnection s sid1 u now).1.connectedUsers ∧
    (sid1, u) ∈ (handleConnection s sid1 u now).1.connectedUsers := by
  simp only [handleConnection]
  rw [jsMapSet_fresh s.connectedUsers sid1 u h1]
  simp [h0]

/-- Concrete state with one live connection, used by the C2 witness. -/
def c2State : GatewayState :=
  (handleConnection (bootState [] [] [] 0) "s1" "alice" 0).1

/-- Witness for the amended C2 at a concrete input. -/
theorem C2_register_coexists_witness :
    (("s1", "alice") ∈ c2State.connectedUsers ∧
      (∀ p ∈ c2State.connectedUsers, p.1 ≠ "s2")) ∧
    (("s1", "alice") ∈ (handleConnection c2State "s2" "alice" 1).1.connectedUsers ∧
     ("s2", "alice") ∈ (handleConnection c2State "s2" "alice" 1).1.connectedUsers) :=
  ⟨⟨by decide, by decide⟩,
   C2_register_coexists c2State "s1" "s2" "alice" 1 (by decide) (by decide)⟩

/-! ### Claim C8: cancel then submit -/

/-- Claim C8: cancelling a session is unconditional and idempotent and
acknowledges cancellation even if the session never existed; a chunk
submitted after cancellation hits the session-not-found path and is
reported to the caller as an `uploadError` event (no silent success):
the state is unchanged, no `chunkReceived`, no message, and the handler
returns normally (the connection stays open). -/
theorem C8_cancel_then_chunk (s : GatewayState) (sid sid2 sender : String)
    (p : ChunkPayload) (now : Nat) :
    jsMapGet (handleCancelUpload s sid p.uploadId).1.tempUploads p.uploadId = none ∧
    (handleCancelUpload s sid p.uploadId).2
      = [Emit.toSocket sid (Event.uploadCancelled p.uploadId)] ∧
    handleCancelUpload (handleCancelUpload s sid p.uploadId).1 sid p.uploadId
      = handleCancelUpload s sid p.uploadId ∧
    handleUploadChunk (handleCancelUpload s sid p.uploadId).1 sid2 sender p now
      = ((handleCancelUpload s sid p.uploadId).1,
         [Emit.toSocket sid2 (Event.uploadError "Failed to upload chunk" (some p.uploadId))]) := by
  have h : jsMapGet (handleCancelUpload s sid p.uploadId).1.tempUploads p.uploadId
      = none := by
    simp only [handleCancelUpload]
    exact jsMapGet_delete_self _ _
  refine ⟨h, rfl, ?_, ?_⟩
  · simp only [handleCancelUpload]
    rw [jsMapDelete_idem]
  · simp only [handleUploadChunk, h]

/-! ### Lemmas about the message store -/

theorem findById_id (db : List PrivateMessage) (mid : Nat) (msg : PrivateMessage)
    (hf : findById db mid = some msg) : msg.id = mid := by
  have := List.find?_some hf
  simpa using this

theorem findById_mem (db : List PrivateMessage) (mid : Nat) (msg : PrivateMessage)
    (hf : findById db mid = some msg) : msg ∈ db :=
  List.mem_of_find?_eq_some hf

/-- Saving an updated copy of a found document makes the update visible
to a subsequent lookup of the same id. -/
theorem findById_saveById (db : List PrivateMessage) (msg m2 : PrivateMessage)
    (mid : Nat) (hf : findById db mid = some msg) (hid : m2.id = msg.id) :
    findById (saveById db m2) mid = some m2 := by
  have hmsgid : msg.id = mid := findById_id db mid msg hf
  unfold findById saveById
  rw [List.find?_map]
  have hcong : ((fun m => m.id == mid) ∘ fun m => if m.id == m2.id then m2 else m)
      = fun m : PrivateMessage => m.id == mid := by
    funext m
    by_cases h : m.id = m2.id
    · simp [h, hid, hmsgid]
    · simp [h]
  rw [hcong]
  unfold findById at hf
  rw [hf]
  simp [hid, hmsgid]

/-- Saving a document leaves every position holding a different id
untouched. -/
theorem saveById_frame (db : List PrivateMessage) (m2 : PrivateMessage) (i : Nat)
    (m : PrivateMessage) (h : db[i]? = some m) (hne : m.id ≠ m2.id) :
    (saveById db m2)[i]? = some m := by
  unfold saveById
  rw [List.getElem?_map, h]
  simp [hne]

/-- Appending a fresh-id document makes it findable. -/
theorem findById_append_fresh (db : List PrivateMessage) (msg : PrivateMessage)
    (h : ∀ m ∈ db, m.id ≠ msg.id) : findById (db ++ [msg]) msg.id = some msg := by
  unfold findById
  rw [List.find?_append]
  have hnone : db.find? (fun m => m.id == msg.id) = none := by
    rw [List.find?_eq_none]
    intro m hm
    simpa using h m hm
  rw [hnone]
  simp

/-! ### Claim C4: mark-message-read guard -/

/-- Claim C4: the mark-read operation is guarded only by "the caller is
the message's receiver" (no delivery precondition, so it applies to a
still-undelivered message just as well); when the guard holds it sets
`isRead`, stamps the read time, leaves every other message untouched,
and notifies the sender's socket with the message id and read time when
the sender is reachable; when the message does not exist or its
receiver differs from the caller, state and emissions are untouched. -/
theorem handleMarkMessageAsRead_eq_pos (s : GatewayState) (caller : String)
    (mid now : Nat) (msg : PrivateMessage)
    (hf : findById s.privateMessageDb mid = some msg)
    (hrecv : msg.receiver = caller) :
    handleMarkMessageAsRead s caller mid now =
      ({ s with privateMessageDb :=
          saveById s.privateMessageDb { msg with isRead := true, readAt := some now } },
       match findConnection s.connectedUsers msg.sender with
       | some ssock => [Emit.toSocket ssock (Event.messageRead msg.id now)]
       | none => []) := by
  simp only [handleMarkMessageAsRead, hf]
  rw [if_pos (by simp [hrecv])]
  cases hc : findConnection s.connectedUsers msg.sender <;> simp [hc]

theorem C4_mark_read (s : GatewayState) (caller : String) (mid now : Nat) :
    (∀ msg, findById s.privateMessageDb mid = some msg → msg.receiver = caller →
      findById (handleMarkMessageAsRead s caller mid now).1.privateMessageDb mid
          = some { msg with isRead := true, readAt := some now } ∧
      (∀ (i : Nat) (m : PrivateMessage), s.privateMessageDb[i]? = some m → m.id ≠ mid →
        (handleMarkMessageAsRead s caller mid now).1.privateMessageDb[i]? = some m) ∧
      (∀ ssock, findConnection s.connectedUsers msg.sender = some ssock →
        (handleMarkMessageAsRead s caller mid now).2
          = [Emit.toSocket ssock (Event.messageRead mid now)]) ∧
      (findConnection s.connectedUsers msg.sender = none →
        (handleMarkMessageAsRead s caller mid now).2 = [])) ∧
    (∀ msg, findById s.privateMessageDb mid = some msg → msg.receiver ≠ caller →
      handleMarkMessageAsRead s caller mid now = (s, [])) ∧
    (findById s.privateMessageDb mid = none →
      handleMarkMessageAsRead s caller mid now = (s, [])) := by
  refine ⟨?_, ?_, ?_⟩
  · intro msg hf hrecv
    have hid : msg.id = mid := findById_id _ _ _ hf
    rw [handleMarkMessageAsRead_eq_pos s caller mid now msg hf hrecv]
    refine ⟨findById_saveById _ _ _ _ hf rfl, ?_, ?_, ?_⟩
    · intro i m hm hne
      exact saveById_frame _ _ _ _ hm (by simpa [hid] using hne)
    · intro ssock hc
      simp [hc, hid]
    · intro hc
      simp [hc]
  · intro msg hf hrecv
    simp [handleMarkMessageAsRead, hf, hrecv]
  · intro hf
    simp [handleMarkMessageAsRead, hf]

/-- A concrete undelivered message from alice to bob, id 5. -/
def sampleMsg : PrivateMessage :=
  { id := 5, sender := "alice", receiver := "bob", content := "hi",
    isRead := false, isDelivered := false, timestamp := 3, deliveredAt := none,
    readAt := none, fileUrl := none, fileName := none, fileType := none,
    fileSize := none }

/-- A store holding only `sampleMsg`, nobody connected. -/
def c4State : GatewayState := bootState [] [] [sampleMsg] 6

/-- Witness for C4: marking the (undelivered) sample message read as
its receiver updates the flag and the read time. -/
theorem C4_mark_read_witness :
    findById c4State.privateMessageDb 5 = some sampleMsg ∧
    sampleMsg.receiver = "bob" ∧
    findById (handleMarkMessageAsRead c4State "bob" 5 7).1.privateMessageDb 5
      = some { sampleMsg with isRead := true, readAt := some 7 } :=
  ⟨by decide, by decide,
   ((C4_mark_read c4State "bob" 5 7).1 sampleMsg (by decide) (by decide)).1⟩

/-! ### Claim C5: send path, delivery iff reachable -/

theorem privateMessageDb_handleStopTyping (s : GatewayState) (a b : String) :
    (handleStopTyping s a b).1.privateMessageDb = s.privateMessageDb := by
  simp only [handleStopTyping]
  split <;> split <;> rfl

theorem handleStopTyping_snd_some (s : GatewayState) (a b c : String)
    (h : findConnection s.connectedUsers b = some c) :
    (handleStopTyping s a b).2 = [Emit.toSocket c (Event.userStoppedTyping a)] := by
  simp only [handleStopTyping]
  split
  · rename_i username heq
    rw [h] at heq
    injection heq with h2
    subst h2
    rfl
  · rename_i heq
    rw [h] at heq
    cases heq

theorem handleStopTyping_snd_none (s : GatewayState) (a b : String)
    (h : findConnection s.connectedUsers b = none) :
    (handleStopTyping s a b).2 = [] := by
  simp only [handleStopTyping]
  split
  · rename_i username heq
    rw [h] at heq
    cases heq
  · rfl

/-- The message record freshly created by `handlePrivateMessage`. -/
def mkPrivateMsg (nid : Nat) (sender receiver content : String) (now : Nat) :
    PrivateMessage :=
  { id := nid, sender := sender, receiver := receiver, content := content,
    isRead := false, isDelivered := false, timestamp := now, deliveredAt := none,
    readAt := none, fileUrl := none, fileName := none, fileType := none,
    fileSize := none }

/-- A message after its synchronous delivery update. -/
def deliveredMsg (m : PrivateMessage) (now : Nat) : PrivateMessage :=
  { m with isDelivered := true, deliveredAt := some now }

/-- Claim C5: a private message is always durably created and echoed to
the sender's own connection; exactly when the receiver is reachable,
the receiver gets `newPrivateMessage`, the stored message is marked
delivered with a delivery timestamp, and the sender gets a
`messageDelivered` event for the same id; with an unreachable receiver
the handler emits the echo alone (no receiver notification, no
delivery event) and the stored message stays undelivered. -/
theorem C5_send_private (s : GatewayState) (sid sender receiver content : String)
    (now : Nat) (hwf : ∀ m ∈ s.privateMessageDb, m.id < s.nextId) :
    (∃ m, findById (handlePrivateMessage s sid sender receiver content now).1.privateMessageDb
        s.nextId = some m ∧ m.sender = sender ∧ m.receiver = receiver ∧
        m.content = content) ∧
    (∃ m, m.id = s.nextId ∧ Emit.toSocket sid (Event.newPrivateMessage m)
        ∈ (handlePrivateMessage s sid sender receiver content now).2) ∧
    (∀ c, findConnection s.connectedUsers receiver = some c →
      (∃ m, m.id = s.nextId ∧ Emit.toSocket c (Event.newPrivateMessage m)
          ∈ (handlePrivateMessage s sid sender receiver content now).2) ∧
      (∃ m, findById (handlePrivateMessage s sid sender receiver content now).1.privateMessageDb
          s.nextId = some m ∧ m.isDelivered = true ∧ m.deliveredAt = some now) ∧
      Emit.toSocket sid (Event.messageDelivered s.nextId)
          ∈ (handlePrivateMessage s sid sender receiver content now).2) ∧
    (findConnection s.connectedUsers receiver = none →
      (∃ m, (handlePrivateMessage s sid sender receiver content now).2
          = [Emit.toSocket sid (Event.newPrivateMessage m)] ∧ m.id = s.nextId ∧
          m.isDelivered = false) ∧
      (∀ mid, Emit.toSocket sid (Event.messageDelivered mid)
          ∉ (handlePrivateMessage s sid sender receiver content now).2)) := by
  have hfresh : findById
      (s.privateMessageDb ++ [mkPrivateMsg s.nextId sender receiver content now])
      s.nextId = some (mkPrivateMsg s.nextId sender receiver content now) := by
    apply findById_append_fresh
    intro m hm
    exact Nat.ne_of_lt (hwf m hm)
  cases hc : findConnection s.connectedUsers receiver with
  | some c =>
    have hsaved := findById_saveById _ _
      (deliveredMsg (mkPrivateMsg s.nextId sender receiver content now) now) _ hfresh rfl
    simp only [handlePrivateMessage, hc]
    refine ⟨?_, ?_, ?_, ?_⟩
    · exact ⟨_, by rw [privateMessageDb_handleStopTyping]; exact hsaved, rfl, rfl, rfl⟩
    · exact ⟨deliveredMsg (mkPrivateMsg s.nextId sender receiver content now) now,
        rfl, by simp [mkPrivateMsg, deliveredMsg]⟩
    · intro c2 hc2
      injection hc2 with h2
      subst h2
      refine ⟨⟨mkPrivateMsg s.nextId sender receiver content now, rfl,
        by simp [mkPrivateMsg]⟩, ?_, by simp [mkPrivateMsg]⟩
      exact ⟨_, by rw [privateMessageDb_handleStopTyping]; exact hsaved, rfl, rfl⟩
    · intro hc2
      cases hc2
  | none =>
    simp only [handlePrivateMessage, hc]
    refine ⟨?_, ?_, ?_, ?_⟩
    · exact ⟨mkPrivateMsg s.nextId sender receiver content now,
        by rw [privateMessageDb_handleStopTyping]; exact hfresh, rfl, rfl, rfl⟩
    · exact ⟨mkPrivateMsg s.nextId sender receiver content now, rfl, by simp [mkPrivateMsg]⟩
    · intro c2 hc2
      cases hc2
    · intro _
      refine ⟨⟨mkPrivateMsg s.nextId sender receiver content now, ?_, rfl, rfl⟩, ?_⟩
      · simp [handleStopTyping_snd_none, hc, mkPrivateMsg]
      · intro mid
        simp [handleStopTyping_snd_none, hc]

/-- Two users connected: alice on socket sA, bob on socket sB. -/
def c5State : GatewayState :=
  { connectedUsers := [("sA", "alice"), ("sB", "bob")], typingUsers := [],
    tempUploads := [], rooms := [], userDb := [], roomMessageDb := [],
    privateMessageDb := [], files := [], nextId := 0 }

/-- Witness for C5: alice sends to reachable bob; bob gets the message,
the store marks it delivered and alice gets the delivery event. -/
theorem C5_send_private_witness :
    (∀ m ∈ c5State.privateMessageDb, m.id < c5State.nextId) ∧
    findConnection c5State.connectedUsers "bob" = some "sB" ∧
    ((∃ m, m.id = c5State.nextId ∧ Emit.toSocket "sB" (Event.newPrivateMessage m)
        ∈ (handlePrivateMessage c5State "sA" "alice" "bob" "hi" 9).2) ∧
     (∃ m, findById (handlePrivateMessage c5State "sA" "alice" "bob" "hi" 9).1.privateMessageDb
        c5State.nextId = some m ∧ m.isDelivered = true ∧ m.deliveredAt = some 9) ∧
     Emit.toSocket "sA" (Event.messageDelivered c5State.nextId)
        ∈ (handlePrivateMessage c5State "sA" "alice" "bob" "hi" 9).2) :=
  ⟨by decide, by decide,
   (C5_send_private c5State "sA" "alice" "bob" "hi" 9 (by decide)).2.2.1 "sB" (by decide)⟩

/-! ### Claim C10: no password in emitted user records -/

/-- Blank out the password field, keeping everything else. -/
def scrubPassword (u : User) : User := { u with password := "" }

theorem toPublic_scrubPassword (u : User) : toPublic (scrubPassword u) = toPublic u := rfl

/-- Claim C10: the records emitted by the user-list broadcast and by
the search-users result are independent of every stored password: two
user stores that agree on everything but passwords produce identical
`searchResults` and `userList` emissions, for every query.  (The
emitted records are of the password-free projection type `PublicUser`.) -/
theorem C10_no_password (sA sB : GatewayState) (sid query : String)
    (h : sA.userDb.map scrubPassword = sB.userDb.map scrubPassword) :
    (handleSearchUsers sA sid query).2 = (handleSearchUsers sB sid query).2 ∧
    broadcastUserList sA.userDb = broadcastUserList sB.userDb := by
  have hfact : ∀ db : List User,
      (db.filter (fun u => regexMatchI query u.username)).map toPublic
        = ((db.map scrubPassword).filter
            (fun u => regexMatchI query u.username)).map toPublic := by
    intro db
    rw [List.filter_map]
    rw [List.map_map]
    rfl
  have hlist : ∀ db : List User, db.map toPublic = (db.map scrubPassword).map toPublic := by
    intro db
    rw [List.map_map]
    rfl
  constructor
  · simp only [handleSearchUsers]
    rw [hfact sA.userDb, hfact sB.userDb, h]
  · simp only [broadcastUserList]
    rw [hlist sA.userDb, hlist sB.userDb, h]

/-- Store with one user whose password is "pw1". -/
def c10StateA : GatewayState :=
  bootState [{ username := "alice", password := "pw1", isOnline := true,
               lastSeen := 0, createdAt := 0 }] [] [] 0

/-- The same store except the password is "pw2". -/
def c10StateB : GatewayState :=
  bootState [{ username := "alice", password := "pw2", isOnline := true,
               lastSeen := 0, createdAt := 0 }] [] [] 0

/-- Witness for C10 on two stores differing only in a password. -/
theorem C10_no_password_witness :
    c10StateA.userDb.map scrubPassword = c10StateB.userDb.map scrubPassword ∧
    ((handleSearchUsers c10StateA "s" "ali").2 = (handleSearchUsers c10StateB "s" "ali").2 ∧
     broadcastUserList c10StateA.userDb = broadcastUserList c10StateB.userDb) :=
  ⟨by decide, C10_no_password c10StateA c10StateB "s" "ali" (by decide)⟩

/-! ### Claim C7: what clears a typing relation -/

theorem jsMapGet_jsMapSet_self (m : List (String × α)) (k : String) (v : α) :
    jsMapGet (jsMapSet m k v) k = some v := by
  induction m with
  | nil => simp [jsMapSet, jsMapGet]
  | cons p m ih =>
    unfold jsMapSet
    by_cases hp : p.1 = k
    · rw [if_pos hp]
      unfold jsMapGet
      rw [if_pos rfl]
    · rw [if_neg hp]
      unfold jsMapGet
      rw [if_neg hp]
      exact ih

theorem jsMapGet_jsMapSet_ne (m : List (String × α)) (k k' : String) (v : α)
    (h : k' ≠ k) : jsMapGet (jsMapSet m k v) k' = jsMapGet m k' := by
  induction m with
  | nil => simp [jsMapSet, jsMapGet, Ne.symm h]
  | cons p m ih =>
    unfold jsMapSet
    by_cases hp : p.1 = k
    · rw [if_pos hp]
      unfold jsMapGet
      rw [if_neg (Ne.symm h), if_neg (by rw [hp]; exact Ne.symm h)]
    · rw [if_neg hp]
      unfold jsMapGet
      by_cases hp' : p.1 = k'
      · rw [if_pos hp', if_pos hp']
      · rw [if_neg hp', if_neg hp']
        exact ih

theorem jsMapGet_jsMapDelete_ne (m : List (String × α)) (k k' : String)
    (h : k' ≠ k) : jsMapGet (jsMapDelete m k) k' = jsMapGet m k' := by
  induction m with
  | nil => rfl
  | cons p m ih =>
    by_cases hp : p.1 = k
    · rw [jsMapDelete_cons, if_pos hp, ih, jsMapGet_cons,
        if_neg (show ¬p.1 = k' by rw [hp]; exact Ne.symm h)]
    · rw [jsMapDelete_cons, if_neg hp, jsMapGet_cons, jsMapGet_cons]
      by_cases hp' : p.1 = k'
      · rw [if_pos hp', if_pos hp']
      · rw [if_neg hp', if_neg hp', ih]

/-- The typing relation read off a typing-tracker map. -/
def typingRelOn (tu : List (String × List String)) (a b : String) : Bool :=
  match jsMapGet tu a with
  | some set => decide (b ∈ set)
  | none => false

/-- Whether the tracker currently relates sender `a` to recipient `b`. -/
def typingRel (s : GatewayState) (a b : String) : Bool :=
  typingRelOn s.typingUsers a b

theorem mem_jsSetDelete (s : List String) (x b : String) :
    b ∈ jsSetDelete s x ↔ (b ∈ s ∧ b ≠ x) := by
  induction s with
  | nil => simp [jsSetDelete]
  | cons y s ih =>
    by_cases hy : y = x
    · rw [jsSetDelete_cons, if_pos hy, ih]
      subst hy
      constructor
      · rintro ⟨h1, h2⟩
        exact ⟨List.mem_cons_of_mem y h1, h2⟩
      · rintro ⟨h1, h2⟩
        rcases List.mem_cons.mp h1 with h3 | h3
        · exact absurd h3 h2
        · exact ⟨h3, h2⟩
    · rw [jsSetDelete_cons, if_neg hy]
      constructor
      · intro h1
        rcases List.mem_cons.mp h1 with h3 | h3
        · subst h3
          exact ⟨List.mem_cons_self b s, fun hc => hy hc⟩
        · rcases ih.mp h3 with ⟨h4, h5⟩
          exact ⟨List.mem_cons_of_mem y h4, h5⟩
      · rintro ⟨h1, h2⟩
        rcases List.mem_cons.mp h1 with h3 | h3
        · exact h3 ▸ List.mem_cons_self y _
        · exact List.mem_cons_of_mem y (ih.mpr ⟨h3, h2⟩)

theorem mem_jsSetAdd (s : List String) (x b : String) :
    b ∈ jsSetAdd s x ↔ (b ∈ s ∨ b = x) := by
  unfold jsSetAdd
  by_cases hx : x ∈ s
  · rw [if_pos hx]
    constructor
    · exact Or.inl
    · rintro (h | h)
      · exact h
      · exact h ▸ hx
  · rw [if_neg hx]
    simp [List.mem_append]

theorem typingRelOn_jsMapSet_ne (tu : List (String × List String)) (u : String)
    (v : List String) (a b : String) (h : a ≠ u) :
    typingRelOn (jsMapSet tu u v) a b = typingRelOn tu a b := by
  unfold typingRelOn
  rw [jsMapGet_jsMapSet_ne tu u a v h]

theorem typingRelOn_jsMapSet_self (tu : List (String × List String)) (u : String)
    (v : List String) (b : String) :
    typingRelOn (jsMapSet tu u v) u b = decide (b ∈ v) := by
  unfold typingRelOn
  rw [jsMapGet_jsMapSet_self]

theorem typingRelOn_jsMapDelete_ne (tu : List (String × List String)) (u a b : String)
    (h : a ≠ u) : typingRelOn (jsMapDelete tu u) a b = typingRelOn tu a b := by
  unfold typingRelOn
  rw [jsMapGet_jsMapDelete_ne tu u a h]

theorem typingRelOn_jsMapDelete_self (tu : List (String × List String)) (u b : String) :
    typingRelOn (jsMapDelete tu u) u b = false := by
  unfold typingRelOn
  rw [jsMapGet_delete_self]

theorem typingUsers_handleStopTyping (s : GatewayState) (x y : String) :
    (handleStopTyping s x y).1.typingUsers =
      (match jsMapGet s.typingUsers x with
       | some set => jsMapSet s.typingUsers x (jsSetDelete set y)
       | none => s.typingUsers) := by
  simp only [handleStopTyping]
  cases hj : jsMapGet s.typingUsers x <;> simp only [hj] <;> split <;> rfl

theorem typingRel_handleStopTyping (s : GatewayState) (x y a b : String) :
    typingRel (handleStopTyping s x y).1 a b
      = if a = x ∧ b = y then false else typingRel s a b := by
  unfold typingRel
  rw [typingUsers_handleStopTyping]
  by_cases hax : a = x
  · subst hax
    cases hj : jsMapGet s.typingUsers a with
    | none =>
      simp only
      by_cases hby : b = y
      · rw [if_pos ⟨trivial, hby⟩]
        unfold typingRelOn
        rw [hj]
      · rw [if_neg (fun hc => hby hc.2)]
    | some set =>
      simp only
      rw [typingRelOn_jsMapSet_self]
      by_cases hby : b = y
      · rw [if_pos ⟨trivial, hby⟩]
        subst hby
        simp [mem_jsSetDelete]
      · rw [if_neg (fun hc => hby hc.2)]
        unfold typingRelOn
        rw [hj]
        simp [mem_jsSetDelete, hby]
  · rw [if_neg (fun hc => hax hc.1)]
    cases hj : jsMapGet s.typingUsers x with
    | none => simp only
    | some set =>
      simp only
      exact typingRelOn_jsMapSet_ne _ _ _ _ _ hax

theorem typingUsers_handleMarkMessageAsRead (s : GatewayState) (caller : String)
    (mid now : Nat) :
    (handleMarkMessageAsRead s caller mid now).1.typingUsers = s.typingUsers := by
  simp only [handleMarkMessageAsRead]
  split
  · split
    · split <;> rfl
    · rfl
  · rfl

theorem typingUsers_handleGetPrivateMessages (s : GatewayState)
    (sid caller other : String) (now : Nat) :
    (handleGetPrivateMessages s sid caller other now).1.typingUsers = s.typingUsers := by
  simp only [handleGetPrivateMessages]
  split <;> rfl

theorem typingUsers_handleUploadChunk (s : GatewayState) (sid sender : String)
    (p : ChunkPayload) (now : Nat) :
    (handleUploadChunk s sid sender p now).1.typingUsers = s.typingUsers := by
  simp only [handleUploadChunk]
  split
  · rfl
  · split
    · split
      · rfl
      · split <;> rfl
    · rfl

theorem typingRel_handlePrivateMessage (s : GatewayState) (sid x y content : String)
    (now : Nat) (a b : String) :
    typingRel (handlePrivateMessage s sid x y content now).1 a b
      = if a = x ∧ b = y then false else typingRel s a b := by
  simp only [handlePrivateMessage]
  split
  · rw [typingRel_handleStopTyping]
    rfl
  · rw [typingRel_handleStopTyping]
    rfl

theorem typingRel_handleTyping_mono (s : GatewayState) (x y a b : String)
    (h : typingRel s a b = true) :
    typingRel (handleTyping s x y).1 a b = true := by
  unfold typingRel at h ⊢
  have hty : (handleTyping s x y).1.typingUsers =
      (let tu0 := if jsMapHas s.typingUsers x then s.typingUsers
        else jsMapSet s.typingUsers x []
       match jsMapGet tu0 x with
       | some set => jsMapSet tu0 x (jsSetAdd set y)
       | none => tu0) := by
    simp only [handleTyping]
    split <;> rfl
  rw [hty]
  by_cases hhas : jsMapHas s.typingUsers x
  · simp only [if_pos hhas]
    obtain ⟨set0, hset0⟩ : ∃ set0, jsMapGet s.typingUsers x = some set0 := by
      unfold jsMapHas at hhas
      exact Option.isSome_iff_exists.mp hhas
    rw [hset0]
    by_cases hax : a = x
    · subst hax
      rw [typingRelOn_jsMapSet_self]
      unfold typingRelOn at h
      rw [hset0] at h
      simp only [decide_eq_true_eq] at h ⊢
      exact (mem_jsSetAdd set0 y b).mpr (Or.inl h)
    · rw [typingRelOn_jsMapSet_ne _ _ _ _ _ hax]
      exact h
  · simp only [if_neg hhas]
    rw [jsMapGet_jsMapSet_self]
    by_cases hax : a = x
    · subst hax
      exfalso
      unfold jsMapHas at hhas
      unfold typingRelOn at h
      cases hj : jsMapGet s.typingUsers a with
      | some set => exact hhas (by rw [hj]; rfl)
      | none => rw [hj] at h; cases h
    · rw [typingRelOn_jsMapSet_ne _ _ _ _ _ hax]
      rw [typingRelOn_jsMapSet_ne _ _ _ _ _ hax]
      exact h

theorem handlePrivateMessage_stopNotify (s : GatewayState) (sid x y content : String)
    (now : Nat) (c : String) (hc : findConnection s.connectedUsers y = some c) :
    Emit.toSocket c (Event.userStoppedTyping x)
      ∈ (handlePrivateMessage s sid x y content now).2 := by
  simp only [handlePrivateMessage, hc]
  simp [handleStopTyping_snd_some, hc]

/-- A state where alice (connected on socket s1) is typing to bob. -/
def c7State : GatewayState :=
  { connectedUsers := [("s1", "alice")], typingUsers := [("alice", ["bob"])],
    tempUploads := [], rooms := [], userDb := [], roomMessageDb := [],
    privateMessageDb := [], files := [], nextId := 0 }

/-- Claim C7 is refuted at a concrete input: a disconnect — an
operation that is neither an explicit stop-typing nor a message send —
also removes the sender's typing relation (handleDisconnect deletes the
user's whole typing set). -/
theorem C7_counterexample :
    typingRel c7State "alice" "bob" = true ∧
    typingRel (applyOp c7State (Op.disconnect "s1" 5)) "alice" "bob" = false := by
  decide

/-- Amended C7: a typing relation (a, b) is removed by an explicit
stop-typing for that pair, by a message send from a to b (which also
notifies a reachable b with `userStoppedTyping` without an explicit
stop-typing call), and additionally by a disconnect of a's connection
(the whole set is deleted) or a fresh connection authenticated as a
(the set is reset); no other operation removes it. -/
theorem C7_typing_clear (s : GatewayState) (a b : String) :
    (∀ op : Op, typingRel s a b = true → typingRel (applyOp s op) a b = false →
      (∃ sid, op = Op.stopTyping sid a b) ∨
      (∃ sid content now, op = Op.sendPrivateMessage sid a b content now) ∨
      (∃ sid now, op = Op.disconnect sid now ∧ jsMapGet s.connectedUsers sid = some a) ∨
      (∃ sid now, op = Op.connect sid a now)) ∧
    (∀ sid content now,
      typingRel (applyOp s (Op.sendPrivateMessage sid a b content now)) a b = false) ∧
    (∀ sid content now c, findConnection s.connectedUsers b = some c →
      Emit.toSocket c (Event.userStoppedTyping a)
        ∈ (step s (Op.sendPrivateMessage sid a b content now)).2) := by
  refine ⟨?_, ?_, ?_⟩
  · intro op hbefore hafter
    cases op with
    | connect sid u now =>
      by_cases hau : a = u
      · subst hau
        exact Or.inr (Or.inr (Or.inr ⟨sid, now, rfl⟩))
      · exfalso
        have h2 : typingRelOn (jsMapSet s.typingUsers u []) a b = false := hafter
        rw [typingRelOn_jsMapSet_ne _ _ _ _ _ hau] at h2
        have hb2 : typingRelOn s.typingUsers a b = true := hbefore
        rw [hb2] at h2
        cases h2
    | disconnect sid now =>
      cases hu : jsMapGet s.connectedUsers sid with
      | none =>
        exfalso
        have h3 : applyOp s (Op.disconnect sid now) = s := by
          simp only [applyOp, step, handleDisconnect, hu]
        rw [h3, hbefore] at hafter
        cases hafter
      | some u =>
        by_cases hau : a = u
        · subst hau
          exact Or.inr (Or.inr (Or.inl ⟨sid, now, rfl, hu⟩))
        · exfalso
          have h3 : (applyOp s (Op.disconnect sid now)).typingUsers
              = jsMapDelete s.typingUsers u := by
            simp only [applyOp, step, handleDisconnect, hu]
          have h2 : typingRelOn (jsMapDelete s.typingUsers u) a b = false := by
            unfold typingRel at hafter
            rw [h3] at hafter
            exact hafter
          rw [typingRelOn_jsMapDelete_ne _ _ _ _ hau] at h2
          have hb2 : typingRelOn s.typingUsers a b = true := hbefore
          rw [hb2] at h2
          cases h2
    | joinRoom sid room =>
      exfalso
      have h2 : typingRel (applyOp s (Op.joinRoom sid room)) a b
          = typingRel s a b := rfl
      rw [h2, hbefore] at hafter
      cases hafter
    | leaveRoom sid room =>
      exfalso
      have h2 : typingRel (applyOp s (Op.leaveRoom sid room)) a b
          = typingRel s a b := rfl
      rw [h2, hbefore] at hafter
      cases hafter
    | sendMessage sid sender room content =>
      exfalso
      have h2 : typingRel (applyOp s (Op.sendMessage sid sender room content)) a b
          = typingRel s a b := rfl
      rw [h2, hbefore] at hafter
      cases hafter
    | sendPrivateMessage sid x y content now =>
      by_cases hxy : a = x ∧ b = y
      · exact Or.inr (Or.inl ⟨sid, content, now, by rw [hxy.1, hxy.2]⟩)
      · exfalso
        have h2 : typingRel (handlePrivateMessage s sid x y content now).1 a b
            = false := hafter
        rw [typingRel_handlePrivateMessage, if_neg hxy, hbefore] at h2
        cases h2
    | markMessageAsRead sid caller mid now =>
      exfalso
      have h2 : typingRel (applyOp s (Op.markMessageAsRead sid caller mid now)) a b
          = typingRel s a b := by
        unfold typingRel
        rw [show (applyOp s (Op.markMessageAsRead sid caller mid now)).typingUsers
          = s.typingUsers from typingUsers_handleMarkMessageAsRead s caller mid now]
      rw [h2, hbefore] at hafter
      cases hafter
    | getPrivateMessages sid caller other now =>
      exfalso
      have h2 : typingRel (applyOp s (Op.getPrivateMessages sid caller other now)) a b
          = typingRel s a b := by
        unfold typingRel
        rw [show (applyOp s (Op.getPrivateMessages sid caller other now)).typingUsers
          = s.typingUsers from typingUsers_handleGetPrivateMessages s sid caller other now]
      rw [h2, hbefore] at hafter
      cases hafter
    | searchUsers sid q =>
      exfalso
      have h2 : typingRel (applyOp s (Op.searchUsers sid q)) a b
          = typingRel s a b := rfl
      rw [h2, hbefore] at hafter
      cases hafter
    | typing sid x y =>
      exfalso
      have h2 : typingRel (handleTyping s x y).1 a b = false := hafter
      rw [typingRel_handleTyping_mono s x y a b hbefore] at h2
      cases h2
    | stopTyping sid x y =>
      by_cases hxy : a = x ∧ b = y
      · exact Or.inl ⟨sid, by rw [hxy.1, hxy.2]⟩
      · exfalso
        have h2 : typingRel (handleStopTyping s x y).1 a b = false := hafter
        rw [typingRel_handleStopTyping, if_neg hxy, hbefore] at h2
        cases h2
    | startFileUpload sid uid n =>
      exfalso
      have h2 : typingRel (applyOp s (Op.startFileUpload sid uid n)) a b
          = typingRel s a b := rfl
      rw [h2, hbefore] at hafter
      cases hafter
    | uploadChunk sid sender p now =>
      exfalso
      have h2 : typingRel (applyOp s (Op.uploadChunk sid sender p now)) a b
          = typingRel s a b := by
        unfold typingRel
        rw [show (applyOp s (Op.uploadChunk sid sender p now)).typingUsers
          = s.typingUsers from typingUsers_handleUploadChunk s sid sender p now]
      rw [h2, hbefore] at hafter
      cases hafter
    | cancelUpload sid uid =>
      exfalso
      have h2 : typingRel (applyOp s (Op.cancelUpload sid uid)) a b
          = typingRel s a b := rfl
      rw [h2, hbefore] at hafter
      cases hafter
  · intro sid content now
    show typingRel (handlePrivateMessage s sid a b content now).1 a b = false
    rw [typingRel_handlePrivateMessage]
    simp
  · intro sid content now c hc
    exact handlePrivateMessage_stopNotify s sid a b content now c hc

/-- Witness for the amended C7: an explicit stop-typing removes the
concrete typing relation, and the frame theorem classifies it. -/
theorem C7_typing_clear_witness :
    (typingRel c7State "alice" "bob" = true ∧
     typingRel (applyOp c7State (Op.stopTyping "s1" "alice" "bob")) "alice" "bob" = false) ∧
    ((∃ sid, Op.stopTyping "s1" "alice" "bob" = Op.stopTyping sid "alice" "bob") ∨
     (∃ sid content now,
        Op.stopTyping "s1" "alice" "bob" = Op.sendPrivateMessage sid "alice" "bob" content now) ∨
     (∃ sid now, Op.stopTyping "s1" "alice" "bob" = Op.disconnect sid now ∧
        jsMapGet c7State.connectedUsers sid = some "alice") ∨
     (∃ sid now, Op.stopTyping "s1" "alice" "bob" = Op.connect sid "alice" now)) :=
  ⟨⟨by decide, by decide⟩,
   (C7_typing_clear c7State "alice" "bob").1 (Op.stopTyping "s1" "alice" "bob")
     (by decide) (by decide)⟩

/-! ### Claim C3: batch delivery on history fetch -/

/-- Whether an emission is a `messageDelivered` notification for the
given message id (to any socket). -/
def deliveredNotifFor (mid : Nat) : Emit → Bool
  | Emit.toSocket _ (Event.messageDelivered k) => k == mid
  | _ => false

theorem findById_of_mem_nodup (db : List PrivateMessage) (m : PrivateMessage)
    (hids : (db.map PrivateMessage.id).Nodup) (hm : m ∈ db) :
    findById db m.id = some m := by
  induction db with
  | nil => cases hm
  | cons x db ih =>
    simp only [List.map_cons, List.nodup_cons] at hids
    unfold findById
    rcases List.mem_cons.mp hm with h1 | h1
    · subst h1
      rw [List.find?_cons]
      simp
    · have hx : x.id ≠ m.id := by
        intro hc
        exact hids.1 (hc ▸ List.mem_map_of_mem PrivateMessage.id h1)
      rw [List.find?_cons]
      have hb : (x.id == m.id) = false := by simp [hx]
      rw [hb]
      exact ih hids.2 h1

theorem findById_updateManyDelivered (db : List PrivateMessage) (ids : List Nat)
    (now : Nat) (m : PrivateMessage) (hids : (db.map PrivateMessage.id).Nodup)
    (hm : m ∈ db) (hin : ids.contains m.id = true) :
    findById (updateManyDelivered db ids now) m.id
      = some { m with isDelivered := true, deliveredAt := some now } := by
  unfold updateManyDelivered findById
  rw [List.find?_map]
  have hcong : ((fun x => x.id == m.id) ∘ (fun x : PrivateMessage =>
      if ids.contains x.id then { x with isDelivered := true, deliveredAt := some now }
      else x)) = (fun x : PrivateMessage => x.id == m.id) := by
    funext x
    by_cases h : ids.contains x.id = true
    · rw [Function.comp_apply, if_pos h]
    · rw [Function.comp_apply, if_neg h]
  rw [hcong]
  have hfind : db.find? (fun x => x.id == m.id) = some m := findById_of_mem_nodup db m hids hm
  unfold findById at hfind
  rw [hfind]
  rw [Option.map_some']
  rw [if_pos hin]

theorem countP_filterMap (f : α → Option β) (p : β → Bool) (l : List α) :
    (l.filterMap f).countP p = l.countP (fun a => ((f a).map p).getD false) := by
  induction l with
  | nil => rfl
  | cons a l ih =>
    cases hf : f a with
    | none => simp [List.filterMap_cons, hf, List.countP_cons, ih]
    | some b => simp [List.filterMap_cons, hf, List.countP_cons, ih]

theorem countP_eq_one_of_unique (l : List α) (q : α → Bool) (a : α)
    (hnd : l.Nodup) (ha : a ∈ l) (hqa : q a = true)
    (huniq : ∀ x ∈ l, q x = true → x = a) :
    l.countP q = 1 := by
  induction l with
  | nil => cases ha
  | cons x l ih =>
    rw [List.countP_cons]
    simp only [List.nodup_cons] at hnd
    rcases List.mem_cons.mp ha with h1 | h1
    · subst h1
      rw [if_pos hqa]
      have hz : l.countP q = 0 := by
        rw [List.countP_eq_zero]
        intro y hy hqy
        exact hnd.1 ((huniq y (List.mem_cons_of_mem _ hy) hqy) ▸ hy)
      rw [hz]
    · have hx : q x = false := by
        cases hqx : q x with
        | false => rfl
        | true =>
          exfalso
          have hxa : x = a := huniq x (List.mem_cons_self x l) hqx
          subst hxa
          exact hnd.1 h1
      rw [hx]
      simp only [Bool.false_eq_true, if_false, Nat.add_zero]
      exact ih hnd.2 h1 (fun y hy hqy => huniq y (List.mem_cons_of_mem x hy) hqy)

/-- Claim C3: on a history fetch, every still-undelivered message of
the conversation addressed to the requester is updated to delivered
with a delivery timestamp in the single `updateMany` store operation,
and then exactly one delivery notification carrying that message's id
is emitted, to its original sender's socket, when that sender is
reachable; when the sender is unreachable no such notification is
emitted at all, while the flag update stands regardless. -/
theorem C3_batch_delivery (s : GatewayState) (sid caller other : String) (now : Nat)
    (hids : (s.privateMessageDb.map PrivateMessage.id).Nodup) :
    ∀ m ∈ s.privateMessageDb, inConversation caller other m = true →
      m.receiver = caller → m.isDelivered = false →
      findById (handleGetPrivateMessages s sid caller other now).1.privateMessageDb m.id
          = some { m with isDelivered := true, deliveredAt := some now } ∧
      (∀ c, findConnection s.connectedUsers m.sender = some c →
        (handleGetPrivateMessages s sid caller other now).2.countP
            (deliveredNotifFor m.id) = 1 ∧
        Emit.toSocket c (Event.messageDelivered m.id)
            ∈ (handleGetPrivateMessages s sid caller other now).2) ∧
      (findConnection s.connectedUsers m.sender = none →
        (handleGetPrivateMessages s sid caller other now).2.countP
            (deliveredNotifFor m.id) = 0) := by
  intro m hm hconv hrecv hdel
  have hmf : m ∈ s.privateMessageDb.filter (inConversation caller other) :=
    List.mem_filter.mpr ⟨hm, hconv⟩
  have hmm : m ∈ (s.privateMessageDb.filter (inConversation caller other)).mergeSort
      (fun a b => a.timestamp ≤ b.timestamp) := List.mem_mergeSort.mpr hmf
  have hmu : m ∈ ((s.privateMessageDb.filter (inConversation caller other)).mergeSort
      (fun a b => a.timestamp ≤ b.timestamp)).filter
      (fun x => !x.isDelivered && x.receiver == caller) :=
    List.mem_filter.mpr ⟨hmm, by rw [hdel, hrecv]; simp⟩
  have hne : ¬((((s.privateMessageDb.filter (inConversation caller other)).mergeSort
      (fun a b => a.timestamp ≤ b.timestamp)).filter
      (fun x => !x.isDelivered && x.receiver == caller)).isEmpty = true) := by
    rw [Bool.not_eq_true, List.isEmpty_eq_false]
    exact List.ne_nil_of_mem hmu
  have hnd_msgs : (((s.privateMessageDb.filter (inConversation caller other)).mergeSort
      (fun a b => a.timestamp ≤ b.timestamp)).map PrivateMessage.id).Nodup := by
    have hfil : ((s.privateMessageDb.filter (inConversation caller other)).map
        PrivateMessage.id).Nodup :=
      List.Nodup.sublist (List.Sublist.map _ (List.filter_sublist _)) hids
    exact (((List.mergeSort_perm _ _).map PrivateMessage.id).symm).nodup hfil
  have hnd_unread : ((((s.privateMessageDb.filter (inConversation caller other)).mergeSort
      (fun a b => a.timestamp ≤ b.timestamp)).filter
      (fun x => !x.isDelivered && x.receiver == caller)).map PrivateMessage.id).Nodup :=
    List.Nodup.sublist (List.Sublist.map _ (List.filter_sublist _)) hnd_msgs
  have hin : ((((s.privateMessageDb.filter (inConversation caller other)).mergeSort
      (fun a b => a.timestamp ≤ b.timestamp)).filter
      (fun x => !x.isDelivered && x.receiver == caller)).map
        (fun x => x.id)).contains m.id = true :=
    List.elem_iff.mpr (List.mem_map_of_mem (fun x => x.id) hmu)
  simp only [handleGetPrivateMessages]
  rw [if_neg hne]
  refine ⟨?_, ?_, ?_⟩
  · exact findById_updateManyDelivered _ _ _ _ hids hm hin
  · intro c hc
    constructor
    · rw [List.countP_append, countP_filterMap]
      have h1 : (List.countP (deliveredNotifFor m.id)
          [Emit.toSocket sid (Event.privateMessages
            ((s.privateMessageDb.filter (inConversation caller other)).mergeSort
              (fun a b => a.timestamp ≤ b.timestamp)))]) = 0 := by
        simp [List.countP_cons, deliveredNotifFor]
      rw [h1, Nat.add_zero]
      apply countP_eq_one_of_unique _ _ m (List.Nodup.of_map _ hnd_unread) hmu
      · rw [hc]
        simp [deliveredNotifFor]
      · intro x hx hqx
        cases hfc : findConnection s.connectedUsers x.sender with
        | none => rw [hfc] at hqx; cases hqx
        | some cx =>
          rw [hfc] at hqx
          simp only [Option.map_some', Option.getD_some, deliveredNotifFor] at hqx
          exact List.inj_on_of_nodup_map hnd_unread hx hmu (by simpa using hqx)
    · apply List.mem_append_left
      rw [List.mem_filterMap]
      refine ⟨m, hmu, ?_⟩
      rw [hc, Option.map_some']
  · intro hc
    rw [List.countP_append, countP_filterMap]
    have h1 : (List.countP (deliveredNotifFor m.id)
        [Emit.toSocket sid (Event.privateMessages
          ((s.privateMessageDb.filter (inConversation caller other)).mergeSort
            (fun a b => a.timestamp ≤ b.timestamp)))]) = 0 := by
      simp [List.countP_cons, deliveredNotifFor]
    rw [h1, Nat.add_zero]
    rw [List.countP_eq_zero]
    intro x hx hqx
    cases hfc : findConnection s.connectedUsers x.sender with
    | none => rw [hfc] at hqx; cases hqx
    | some cx =>
      rw [hfc] at hqx
      simp only [Option.map_some', Option.getD_some, deliveredNotifFor] at hqx
      have hxm : x = m := List.inj_on_of_nodup_map hnd_unread hx hmu (by simpa using hqx)
      subst hxm
      rw [hfc] at hc
      cases hc

/-- One undelivered message from alice to bob in the store; alice (the
original sender) is connected on socket sA. -/
def c3State : GatewayState :=
  { connectedUsers := [("sA", "alice")], typingUsers := [], tempUploads := [],
    rooms := [], userDb := [], roomMessageDb := [], privateMessageDb := [sampleMsg],
    files := [], nextId := 6 }

/-- Witness for C3: bob fetches the history with alice; the message is
marked delivered and alice gets exactly one delivery notification. -/
theorem C3_batch_delivery_witness :
    ((c3State.privateMessageDb.map PrivateMessage.id).Nodup ∧
     sampleMsg ∈ c3State.privateMessageDb ∧
     inConversation "bob" "alice" sampleMsg = true ∧
     sampleMsg.receiver = "bob" ∧ sampleMsg.isDelivered = false ∧
     findConnection c3State.connectedUsers sampleMsg.sender = some "sA") ∧
    (findById (handleGetPrivateMessages c3State "sB" "bob" "alice" 7).1.privateMessageDb
        sampleMsg.id = some { sampleMsg with isDelivered := true, deliveredAt := some 7 } ∧
     ((handleGetPrivateMessages c3State "sB" "bob" "alice" 7).2.countP
        (deliveredNotifFor sampleMsg.id) = 1 ∧
      Emit.toSocket "sA" (Event.messageDelivered sampleMsg.id)
        ∈ (handleGetPrivateMessages c3State "sB" "bob" "alice" 7).2)) :=
  ⟨⟨by decide, by decide, by decide, by decide, by decide, by decide⟩,
   ⟨(C3_batch_delivery c3State "sB" "bob" "alice" 7 (by decide) sampleMsg (by decide)
       (by decide) (by decide) (by decide)).1,
    (C3_batch_delivery c3State "sB" "bob" "alice" 7 (by decide) sampleMsg (by decide)
       (by decide) (by decide) (by decide)).2.1 "sA" (by decide)⟩⟩

/-! ### Claim C6: delivered/read are one-way latches -/

/-- Store well-formedness: document ids are unique and below the id
source (as Mongo object ids are for a single collection). -/
def storeWF (s : GatewayState) : Prop :=
  (s.privateMessageDb.map PrivateMessage.id).Nodup ∧
  ∀ m ∈ s.privateMessageDb, m.id < s.nextId

/-- Positional monotonicity of the two flags between two store states. -/
def FlagsMono (db db2 : List PrivateMessage) : Prop :=
  ∀ (i : Nat) (m : PrivateMessage), db[i]? = some m →
    ∃ m', db2[i]? = some m' ∧ (m.isDelivered = true → m'.isDelivered = true) ∧
      (m.isRead = true → m'.isRead = true)

theorem FlagsMono_refl (db : List PrivateMessage) : FlagsMono db db :=
  fun _ m h => ⟨m, h, fun hd => hd, fun hr => hr⟩

theorem FlagsMono_trans {a b c : List PrivateMessage}
    (h1 : FlagsMono a b) (h2 : FlagsMono b c) : FlagsMono a c := by
  intro i m hi
  rcases h1 i m hi with ⟨m1, hm1, hd1, hr1⟩
  rcases h2 i m1 hm1 with ⟨m2, hm2, hd2, hr2⟩
  exact ⟨m2, hm2, fun h => hd2 (hd1 h), fun h => hr2 (hr1 h)⟩

theorem FlagsMono_append (db l : List PrivateMessage) : FlagsMono db (db ++ l) := by
  intro i m hi
  have hlt : i < db.length := (List.getElem?_eq_some.mp hi).1
  exact ⟨m, by rw [List.getElem?_append_left hlt]; exact hi, fun h => h, fun h => h⟩

theorem FlagsMono_map (db : List PrivateMessage) (g : PrivateMessage → PrivateMessage)
    (h : ∀ m, (m.isDelivered = true → (g m).isDelivered = true) ∧
      (m.isRead = true → (g m).isRead = true)) : FlagsMono db (db.map g) := by
  intro i m hi
  exact ⟨g m, by rw [List.getElem?_map, hi, Option.map_some'], (h m).1, (h m).2⟩

theorem FlagsMono_updateManyDelivered (db : List PrivateMessage) (ids : List Nat)
    (now : Nat) : FlagsMono db (updateManyDelivered db ids now) := by
  apply FlagsMono_map
  intro m
  by_cases h : ids.contains m.id = true
  · rw [if_pos h]
    exact ⟨fun _ => rfl, fun hr => hr⟩
  · rw [if_neg h]
    exact ⟨fun hd => hd, fun hr => hr⟩

theorem FlagsMono_saveById_read (db : List PrivateMessage) (msg : PrivateMessage)
    (mid now : Nat) (hids : (db.map PrivateMessage.id).Nodup)
    (hf : findById db mid = some msg) :
    FlagsMono db (saveById db { msg with isRead := true, readAt := some now }) := by
  intro i m hi
  have hmem : m ∈ db := List.getElem?_mem hi
  unfold saveById
  rw [List.getElem?_map, hi, Option.map_some']
  by_cases h : m.id = msg.id
  · have hmmsg : m = msg := List.inj_on_of_nodup_map hids hmem (findById_mem db mid msg hf) h
    subst hmmsg
    refine ⟨{ m with isRead := true, readAt := some now }, ?_, ?_, ?_⟩
    · rw [if_pos (by simp)]
    · intro hd
      exact hd
    · intro _
      rfl
  · exact ⟨m, by rw [if_neg (by simp [h])], fun hd => hd, fun hr => hr⟩

theorem map_id_saveById (db : List PrivateMessage) (m2 : PrivateMessage) :
    (saveById db m2).map PrivateMessage.id = db.map PrivateMessage.id := by
  unfold saveById
  rw [List.map_map]
  apply List.map_congr_left
  intro m _
  by_cases h : m.id = m2.id
  · simp [h]
  · simp [h]

theorem map_id_updateManyDelivered (db : List PrivateMessage) (ids : List Nat)
    (now : Nat) :
    (updateManyDelivered db ids now).map PrivateMessage.id
      = db.map PrivateMessage.id := by
  unfold updateManyDelivered
  rw [List.map_map]
  apply List.map_congr_left
  intro m _
  by_cases h : ids.contains m.id = true
  · rw [Function.comp_apply, if_pos h]
  · rw [Function.comp_apply, if_neg h]

theorem storeBound_saveById (db : List PrivateMessage) (m2 : PrivateMessage) (n : Nat)
    (h : ∀ m ∈ db, m.id < n) : ∀ m2' ∈ saveById db m2, m2'.id < n := by
  intro m2' hm2'
  unfold saveById at hm2'
  rcases List.mem_map.mp hm2' with ⟨m, hm, hg⟩
  by_cases hcase : m.id = m2.id
  · rw [← hg, if_pos (by simp [hcase])]
    rw [show m2.id = m.id from hcase.symm]
    exact h m hm
  · rw [← hg, if_neg (by simp [hcase])]
    exact h m hm

theorem saveById_append_fresh (db : List PrivateMessage) (msg m2 : PrivateMessage)
    (hid2 : m2.id = msg.id) (hfresh : ∀ m ∈ db, m.id ≠ msg.id) :
    saveById (db ++ [msg]) m2 = db ++ [m2] := by
  unfold saveById
  rw [List.map_append]
  have h1 : db.map (fun m => if m.id == m2.id then m2 else m) = db := by
    have : ∀ m ∈ db, (if m.id == m2.id then m2 else m) = m := by
      intro m hm
      exact if_neg (by simp [hid2, hfresh m hm])
    rw [List.map_congr_left this]
    simp
  have h2 : [msg].map (fun m => if m.id == m2.id then m2 else m) = [m2] := by
    simp [hid2]
  rw [h1, h2]

theorem nodup_append_fresh (db : List PrivateMessage) (msg : PrivateMessage) (n : Nat)
    (hids : (db.map PrivateMessage.id).Nodup) (hbound : ∀ m ∈ db, m.id < n)
    (hmsg : msg.id = n) :
    ((db ++ [msg]).map PrivateMessage.id).Nodup := by
  rw [List.map_append]
  refine List.Nodup.append hids (by simp) ?_
  intro x hx hx2
  simp only [List.map_cons, List.map_nil, List.mem_singleton] at hx2
  rcases List.mem_map.mp hx with ⟨m, hm, hid⟩
  rw [← hid, hmsg] at hx2
  exact absurd hx2 (Nat.ne_of_lt (hbound m hm))

theorem nextId_handleStopTyping (s : GatewayState) (x y : String) :
    (handleStopTyping s x y).1.nextId = s.nextId := by
  simp only [handleStopTyping]
  split <;> split <;> rfl

theorem privateMessageDb_handleTyping (s : GatewayState) (x y : String) :
    (handleTyping s x y).1.privateMessageDb = s.privateMessageDb := by
  simp only [handleTyping]
  split <;> rfl

theorem nextId_handleTyping (s : GatewayState) (x y : String) :
    (handleTyping s x y).1.nextId = s.nextId := by
  simp only [handleTyping]
  split <;> rfl

theorem storeWF_stopTyping_iff (s : GatewayState) (x y : String) :
    storeWF (handleStopTyping s x y).1 ↔ storeWF s := by
  unfold storeWF
  rw [privateMessageDb_handleStopTyping, nextId_handleStopTyping]

theorem storeBound_updateManyDelivered (db : List PrivateMessage) (ids : List Nat)
    (now n : Nat) (h : ∀ m ∈ db, m.id < n) :
    ∀ m' ∈ updateManyDelivered db ids now, m'.id < n := by
  intro m' hm'
  unfold updateManyDelivered at hm'
  rcases List.mem_map.mp hm' with ⟨m, hm, hg⟩
  by_cases hcase : ids.contains m.id = true
  · rw [← hg, if_pos hcase]
    exact h m hm
  · rw [← hg, if_neg hcase]
    exact h m hm

theorem storeBound_append_fresh (db : List PrivateMessage) (msg : PrivateMessage)
    (n : Nat) (hbound : ∀ m ∈ db, m.id < n) (hmsg : msg.id = n) :
    ∀ m ∈ db ++ [msg], m.id < n + 1 := by
  intro m hm
  rcases List.mem_append.mp hm with h1 | h1
  · exact Nat.lt_succ_of_lt (hbound m h1)
  · simp only [List.mem_singleton] at h1
    rw [h1, hmsg]
    exact Nat.lt_succ_self n

/-- The file-backed message record created on upload completion. -/
def mkFileMsg (nid : Nat) (sender : String) (p : ChunkPayload) (now : Nat) :
    PrivateMessage :=
  { id := nid, sender := sender, receiver := p.receiver,
    content := "Shared a file: " ++ p.fileName, isRead := false,
    isDelivered := false, timestamp := now, deliveredAt := none, readAt := none,
    fileUrl := some ("/uploads/" ++ (toString now ++ "-" ++ sanitizeFileName p.fileName)),
    fileName := some p.fileName, fileType := some p.fileType,
    fileSize := some p.fileSize }

theorem storeWF_mono_applyOp (s : GatewayState) (op : Op) (h : storeWF s) :
    storeWF (applyOp s op) ∧
    FlagsMono s.privateMessageDb (applyOp s op).privateMessageDb := by
  obtain ⟨hids, hbound⟩ := h
  cases op with
  | connect sid u now => exact ⟨⟨hids, hbound⟩, FlagsMono_refl _⟩
  | disconnect sid now =>
    simp only [applyOp, step, handleDisconnect]
    cases hu : jsMapGet s.connectedUsers sid with
    | some u => exact ⟨⟨hids, hbound⟩, FlagsMono_refl _⟩
    | none => exact ⟨⟨hids, hbound⟩, FlagsMono_refl _⟩
  | joinRoom sid room => exact ⟨⟨hids, hbound⟩, FlagsMono_refl _⟩
  | leaveRoom sid room => exact ⟨⟨hids, hbound⟩, FlagsMono_refl _⟩
  | sendMessage sid sender room content =>
    exact ⟨⟨hids, fun m hm => Nat.lt_succ_of_lt (hbound m hm)⟩, FlagsMono_refl _⟩
  | sendPrivateMessage sid x y content now =>
    simp only [applyOp, step, handlePrivateMessage]
    have hfreshid : ∀ m ∈ s.privateMessageDb,
        m.id ≠ (mkPrivateMsg s.nextId x y content now).id :=
      fun m hm => Nat.ne_of_lt (hbound m hm)
    cases hc : findConnection s.connectedUsers y with
    | some c =>
      simp only [hc]
      have hsave : saveById
          (s.privateMessageDb ++ [mkPrivateMsg s.nextId x y content now])
          (deliveredMsg (mkPrivateMsg s.nextId x y content now) now)
          = s.privateMessageDb ++ [deliveredMsg (mkPrivateMsg s.nextId x y content now) now] :=
        saveById_append_fresh _ _ _ rfl hfreshid
      constructor
      · rw [storeWF_stopTyping_iff]
        constructor
        · show ((saveById (s.privateMessageDb ++ [mkPrivateMsg s.nextId x y content now])
            (deliveredMsg (mkPrivateMsg s.nextId x y content now) now)).map
              PrivateMessage.id).Nodup
          rw [hsave]
          exact nodup_append_fresh _ _ _ hids hbound rfl
        · show ∀ m ∈ saveById (s.privateMessageDb ++ [mkPrivateMsg s.nextId x y content now])
            (deliveredMsg (mkPrivateMsg s.nextId x y content now) now), m.id < s.nextId + 1
          rw [hsave]
          exact storeBound_append_fresh _ _ _ hbound rfl
      · rw [privateMessageDb_handleStopTyping]
        show FlagsMono s.privateMessageDb (saveById
          (s.privateMessageDb ++ [mkPrivateMsg s.nextId x y content now])
          (deliveredMsg (mkPrivateMsg s.nextId x y content now) now))
        rw [hsave]
        exact FlagsMono_append _ _
    | none =>
      simp only [hc]
      constructor
      · rw [storeWF_stopTyping_iff]
        exact ⟨nodup_append_fresh _ _ _ hids hbound rfl,
          storeBound_append_fresh _ _ _ hbound rfl⟩
      · rw [privateMessageDb_handleStopTyping]
        exact FlagsMono_append _ _
  | markMessageAsRead sid caller mid now =>
    simp only [applyOp, step, handleMarkMessageAsRead]
    cases hf : findById s.privateMessageDb mid with
    | none => exact ⟨⟨hids, hbound⟩, FlagsMono_refl _⟩
    | some msg =>
      simp only [hf]
      by_cases hr : (msg.receiver == caller) = true
      · rw [if_pos hr]
        cases hcon : findConnection s.connectedUsers msg.sender with
        | some ssock =>
          simp only [hcon]
          refine ⟨⟨?_, ?_⟩, ?_⟩
          · show ((saveById s.privateMessageDb
              { msg with isRead := true, readAt := some now }).map PrivateMessage.id).Nodup
            rw [map_id_saveById]
            exact hids
          · exact storeBound_saveById _ _ _ hbound
          · exact FlagsMono_saveById_read _ _ _ _ hids hf
        | none =>
          simp only [hcon]
          refine ⟨⟨?_, ?_⟩, ?_⟩
          · show ((saveById s.privateMessageDb
              { msg with isRead := true, readAt := some now }).map PrivateMessage.id).Nodup
            rw [map_id_saveById]
            exact hids
          · exact storeBound_saveById _ _ _ hbound
          · exact FlagsMono_saveById_read _ _ _ _ hids hf
      · rw [if_neg hr]
        exact ⟨⟨hids, hbound⟩, FlagsMono_refl _⟩
  | getPrivateMessages sid caller other now =>
    simp only [applyOp, step, handleGetPrivateMessages]
    by_cases he : ((((s.privateMessageDb.filter (inConversation caller other)).mergeSort
        (fun a b => a.timestamp ≤ b.timestamp)).filter
        (fun m => !m.isDelivered && m.receiver == caller)).isEmpty) = true
    · rw [if_pos he]
      exact ⟨⟨hids, hbound⟩, FlagsMono_refl _⟩
    · rw [if_neg he]
      refine ⟨⟨?_, ?_⟩, ?_⟩
      · show ((updateManyDelivered s.privateMessageDb _ now).map PrivateMessage.id).Nodup
        rw [map_id_updateManyDelivered]
        exact hids
      · exact storeBound_updateManyDelivered _ _ _ _ hbound
      · exact FlagsMono_updateManyDelivered _ _ _
  | searchUsers sid q => exact ⟨⟨hids, hbound⟩, FlagsMono_refl _⟩
  | typing sid x y =>
    constructor
    · constructor
      · rw [show (applyOp s (Op.typing sid x y)).privateMessageDb = s.privateMessageDb
          from privateMessageDb_handleTyping s x y]
        exact hids
      · rw [show (applyOp s (Op.typing sid x y)).privateMessageDb = s.privateMessageDb
          from privateMessageDb_handleTyping s x y]
        rw [show (applyOp s (Op.typing sid x y)).nextId = s.nextId
          from nextId_handleTyping s x y]
        exact hbound
    · rw [show (applyOp s (Op.typing sid x y)).privateMessageDb = s.privateMessageDb
        from privateMessageDb_handleTyping s x y]
      exact FlagsMono_refl _
  | stopTyping sid x y =>
    constructor
    · exact (storeWF_stopTyping_iff s x y).mpr ⟨hids, hbound⟩
    · rw [show (applyOp s (Op.stopTyping sid x y)).privateMessageDb = s.privateMessageDb
        from privateMessageDb_handleStopTyping s x y]
      exact FlagsMono_refl _
  | startFileUpload sid uid n => exact ⟨⟨hids, hbound⟩, FlagsMono_refl _⟩
  | uploadChunk sid sender p now =>
    simp only [applyOp, step, handleUploadChunk]
    cases hu : jsMapGet s.tempUploads p.uploadId with
    | none => exact ⟨⟨hids, hbound⟩, FlagsMono_refl _⟩
    | some upload =>
      simp only [hu]
      by_cases hcount : (populatedCount (jsArraySet upload.chunks p.chunkIndex p.chunk)
          == upload.totalChunks) = true
      · rw [if_pos hcount]
        cases hb : bufferConcat (jsArraySet upload.chunks p.chunkIndex p.chunk) with
        | none => exact ⟨⟨hids, hbound⟩, FlagsMono_refl _⟩
        | some fileData =>
          simp only [hb]
          have hfreshid : ∀ m ∈ s.privateMessageDb,
              m.id ≠ (mkFileMsg s.nextId sender p now).id :=
            fun m hm => Nat.ne_of_lt (hbound m hm)
          cases hc : findConnection s.connectedUsers p.receiver with
          | some c =>
            simp only [hc]
            have hsave : saveById
                (s.privateMessageDb ++ [mkFileMsg s.nextId sender p now])
                (deliveredMsg (mkFileMsg s.nextId sender p now) now)
                = s.privateMessageDb ++ [deliveredMsg (mkFileMsg s.nextId sender p now) now] :=
              saveById_append_fresh _ _ _ rfl hfreshid
            refine ⟨⟨?_, ?_⟩, ?_⟩
            · show ((saveById (s.privateMessageDb ++ [mkFileMsg s.nextId sender p now])
                (deliveredMsg (mkFileMsg s.nextId sender p now) now)).map
                  PrivateMessage.id).Nodup
              rw [hsave]
              exact nodup_append_fresh _ _ _ hids hbound rfl
            · show ∀ m ∈ saveById (s.privateMessageDb ++ [mkFileMsg s.nextId sender p now])
                (deliveredMsg (mkFileMsg s.nextId sender p now) now), m.id < s.nextId + 1
              rw [hsave]
              exact storeBound_append_fresh _ _ _ hbound rfl
            · show FlagsMono s.privateMessageDb (saveById
                (s.privateMessageDb ++ [mkFileMsg s.nextId sender p now])
                (deliveredMsg (mkFileMsg s.nextId sender p now) now))
              rw [hsave]
              exact FlagsMono_append _ _
          | none =>
            simp only [hc]
            exact ⟨⟨nodup_append_fresh _ _ _ hids hbound rfl,
              storeBound_append_fresh _ _ _ hbound rfl⟩, FlagsMono_append _ _⟩
      · rw [if_neg hcount]
        exact ⟨⟨hids, hbound⟩, FlagsMono_refl _⟩
  | cancelUpload sid uid => exact ⟨⟨hids, hbound⟩, FlagsMono_refl _⟩

/-- Claim C6: `isDelivered` and `isRead` are one-way latches.  Over any
sequence of gateway operations from a well-formed store, no stored
message ever has either flag set back from true to false (positionally,
each message of the starting store is still present with
flag-monotonically-updated values), so each message becomes Delivered
at most once and Read at most once; well-formedness is preserved. -/
theorem C6_flags_one_way (s : GatewayState) (ops : List Op) (hwf : storeWF s) :
    storeWF (runOps s ops) ∧
    FlagsMono s.privateMessageDb (runOps s ops).privateMessageDb := by
  induction ops generalizing s with
  | nil => exact ⟨hwf, FlagsMono_refl _⟩
  | cons op ops ih =>
    obtain ⟨hwf1, hmono1⟩ := storeWF_mono_applyOp s op hwf
    obtain ⟨hwf2, hmono2⟩ := ih (applyOp s op) hwf1
    exact ⟨hwf2, FlagsMono_trans hmono1 hmono2⟩

/-- A store holding one delivered (but unread) message. -/
def c6State : GatewayState :=
  bootState [] [] [{ sampleMsg with isDelivered := true, deliveredAt := some 4 }] 6

/-- Witness for C6 along a concrete trace: marking the delivered sample
message read keeps both flags monotone and the store well-formed. -/
theorem C6_flags_one_way_witness :
    storeWF c6State ∧
    (storeWF (runOps c6State [Op.markMessageAsRead "sB" "bob" 5 7]) ∧
     FlagsMono c6State.privateMessageDb
       (runOps c6State [Op.markMessageAsRead "sB" "bob" 5 7]).privateMessageDb) :=
  ⟨⟨by decide, by decide⟩,
   C6_flags_one_way c6State [Op.markMessageAsRead "sB" "bob" 5 7] ⟨by decide, by decide⟩⟩

/-! ### Claim C1: chunk accumulation and completion -/

/-- The buffer stored at a chunk index, if any (`undefined`/hole reads
as `none`). -/
def chunkAt (chunks : List (Option Bytes)) (i : Nat) : Option Bytes :=
  (chunks[i]?).bind id

/-- The set of populated chunk indices. -/
def populatedSet (chunks : List (Option Bytes)) : Finset Nat :=
  (Finset.range chunks.length).filter (fun i => (chunkAt chunks i).isSome = true)

theorem chunkAt_ge_length (cs : List (Option Bytes)) (j : Nat)
    (h : cs.length ≤ j) : chunkAt cs j = none := by
  unfold chunkAt
  rw [List.getElem?_eq_none_iff.mpr h]
  rfl

theorem mem_populatedSet (cs : List (Option Bytes)) (j : Nat) :
    j ∈ populatedSet cs ↔ (chunkAt cs j).isSome = true := by
  unfold populatedSet
  rw [Finset.mem_filter, Finset.mem_range]
  constructor
  · exact fun h => h.2
  · intro h
    refine ⟨?_, h⟩
    by_contra hlen
    rw [chunkAt_ge_length cs j (Nat.le_of_not_lt hlen)] at h
    cases h

theorem length_jsArraySet (l : List (Option Bytes)) (i : Nat) (x : Bytes) :
    (jsArraySet l i x).length = max l.length (i + 1) := by
  unfold jsArraySet
  by_cases h : i < l.length
  · rw [if_pos h, List.length_set]
    omega
  · rw [if_neg h]
    simp only [List.length_append, List.length_replicate, List.length_cons,
      List.length_nil]
    omega

theorem chunkAt_jsArraySet (l : List (Option Bytes)) (i : Nat) (x : Bytes) (j : Nat) :
    chunkAt (jsArraySet l i x) j = if j = i then some x else chunkAt l j := by
  unfold jsArraySet
  by_cases hlen : i < l.length
  · rw [if_pos hlen]
    unfold chunkAt
    rw [List.getElem?_set]
    by_cases hj : j = i
    · subst hj
      rw [if_pos rfl, if_pos hlen, if_pos rfl]
      rfl
    · rw [if_neg (fun hc => hj hc.symm), if_neg hj]
  · rw [if_neg hlen]
    have hle : l.length ≤ i := Nat.le_of_not_lt hlen
    unfold chunkAt
    rw [List.getElem?_append]
    by_cases hjl : j < l.length
    · rw [if_pos hjl, if_neg (by omega)]
    · rw [if_neg hjl]
      rw [List.getElem?_append]
      rw [List.length_replicate]
      by_cases hj : j = i
      · subst hj
        rw [if_neg (by omega)]
        have : j - l.length - (j - l.length) = 0 := by omega
        rw [this, if_pos rfl]
        rfl
      · rw [if_neg hj, List.getElem?_eq_none_iff.mpr (Nat.le_of_not_lt hjl)]
        by_cases hrep : j - l.length < i - l.length
        · rw [if_pos hrep, List.getElem?_replicate, if_pos hrep]
          rfl
        · rw [if_neg hrep]
          have hne0 : j - l.length - (i - l.length) ≠ 0 := by omega
          cases hk : j - l.length - (i - l.length) with
          | zero => exact absurd hk hne0
          | succ k => rfl

theorem populatedSet_jsArraySet (cs : List (Option Bytes)) (i : Nat) (x : Bytes) :
    populatedSet (jsArraySet cs i x) = insert i (populatedSet cs) := by
  ext j
  rw [mem_populatedSet, chunkAt_jsArraySet, Finset.mem_insert, mem_populatedSet]
  by_cases hj : j = i
  · rw [if_pos hj]
    simp [hj]
  · rw [if_neg hj]
    simp [hj]

theorem filterMap_id_length (cs : List (Option Bytes)) :
    (cs.filterMap id).length = cs.countP (fun c => c.isSome) := by
  induction cs with
  | nil => rfl
  | cons c cs ih =>
    cases c with
    | none => simp [List.filterMap_cons, List.countP_cons, ih]
    | some b => simp [List.filterMap_cons, List.countP_cons, ih]

theorem countP_isSome_eq_range (cs : List (Option Bytes)) :
    cs.countP (fun c => c.isSome)
      = (List.range cs.length).countP (fun i => (chunkAt cs i).isSome) := by
  induction cs with
  | nil => rfl
  | cons c cs ih =>
    rw [List.length_cons, List.range_succ_eq_map, List.countP_cons, List.countP_cons,
      List.countP_map]
    have hfun : ((fun i => (chunkAt (c :: cs) i).isSome) ∘ Nat.succ)
        = fun i => (chunkAt cs i).isSome := by
      funext i
      rw [Function.comp_apply]
      unfold chunkAt
      rw [List.getElem?_cons_succ]
    rw [hfun, ← ih]
    have h2 : (chunkAt (c :: cs) 0).isSome = c.isSome := by
      unfold chunkAt
      rw [List.getElem?_cons_zero]
      cases c <;> rfl
    rw [h2]

theorem countP_range_eq_card_filter (n : Nat) (p : Nat → Bool) :
    (List.range n).countP p
      = ((Finset.range n).filter (fun i => p i = true)).card := by
  induction n with
  | zero => rfl
  | succ n ih =>
    rw [List.range_succ, List.countP_append, Finset.range_succ, Finset.filter_insert]
    by_cases hp : p n = true
    · rw [if_pos hp]
      rw [Finset.card_insert_of_not_mem (fun hc => by
        have := (Finset.mem_filter.mp hc).1
        exact absurd this (by simp))]
      simp [List.countP_cons, hp, ih]
    · rw [if_neg hp]
      simp [List.countP_cons, hp, ih]

theorem populatedCount_eq_card (cs : List (Option Bytes)) :
    populatedCount cs = (populatedSet cs).card := by
  unfold populatedCount populatedSet
  rw [filterMap_id_length, countP_isSome_eq_range, countP_range_eq_card_filter]

theorem bufferConcat_some_of_populated (cs : List (Option Bytes))
    (h : ∀ j, j < cs.length → (chunkAt cs j).isSome = true) :
    ∃ d, bufferConcat cs = some d := by
  unfold bufferConcat
  rw [if_pos]
  · exact ⟨_, rfl⟩
  · rw [List.all_eq_true]
    intro c hc
    rcases List.mem_iff_getElem.mp hc with ⟨j, hj, hget⟩
    have := h j hj
    unfold chunkAt at this
    rw [List.getElem?_eq_getElem hj, hget] at this
    exact this

theorem populatedCount_of_all_some (cs : List (Option Bytes))
    (h : cs.all Option.isSome = true) : populatedCount cs = cs.length := by
  unfold populatedCount
  induction cs with
  | nil => rfl
  | cons c cs ih =>
    rw [List.all_cons] at h
    rcases Bool.and_eq_true_iff.mp h with ⟨h1, h2⟩
    cases c with
    | none => cases h1
    | some b => simp [List.filterMap_cons, ih h2]

theorem bufferConcat_some_all (cs : List (Option Bytes)) (d : Bytes)
    (h : bufferConcat cs = some d) : cs.all Option.isSome = true := by
  unfold bufferConcat at h
  by_cases hall : cs.all Option.isSome = true
  · exact hall
  · rw [if_neg hall] at h
    cases h

/-- Run a sequence of `uploadChunk` submissions from one client
(state only; each step is one `handleUploadChunk` call). -/
def runUploadChunks (s : GatewayState) (sid sender : String) (now : Nat) :
    List ChunkPayload → GatewayState
  | [] => s
  | p :: ps => runUploadChunks (handleUploadChunk s sid sender p now).1 sid sender now ps

theorem length_saveById (db : List PrivateMessage) (m2 : PrivateMessage) :
    (saveById db m2).length = db.length := by
  unfold saveById
  rw [List.length_map]

/-- Chunks submitted against a missing (cancelled or completed) session
leave the state untouched. -/
theorem runUploadChunks_absent (ps : List ChunkPayload) (s : GatewayState)
    (uid sid sender : String) (now : Nat)
    (hu : jsMapGet s.tempUploads uid = none)
    (hps : ∀ p ∈ ps, p.uploadId = uid) :
    runUploadChunks s sid sender now ps = s := by
  induction ps with
  | nil => rfl
  | cons p ps ih =>
    simp only [runUploadChunks]
    have hstep : (handleUploadChunk s sid sender p now).1 = s := by
      simp only [handleUploadChunk, hps p (List.mem_cons_self p ps), hu]
    rw [hstep]
    exact ih (fun q hq => hps q (List.mem_cons_of_mem p hq))

/-- Invariant run of chunk submissions against a live session holding
chunk array `cs`: the store grows by exactly one message exactly when
the populated indices reach all of `[0, N)`, and the session disappears
exactly then. -/
theorem runUploadChunks_invariant (ps : List ChunkPayload) (s : GatewayState)
    (cs : List (Option Bytes)) (uid sid sender : String) (now : Nat) (N : Nat)
    (hu : jsMapGet s.tempUploads uid = some { chunks := cs, totalChunks := N })
    (hlen : cs.length ≤ N)
    (hsub : populatedSet cs ⊆ Finset.range N)
    (hne : populatedSet cs ≠ Finset.range N)
    (hps : ∀ p ∈ ps, p.uploadId = uid ∧ p.chunkIndex < N) :
    ((runUploadChunks s sid sender now ps).privateMessageDb.length
      = s.privateMessageDb.length +
        (if populatedSet cs ∪ (ps.map ChunkPayload.chunkIndex).toFinset
            = Finset.range N then 1 else 0)) ∧
    (jsMapGet (runUploadChunks s sid sender now ps).tempUploads uid = none
      ↔ populatedSet cs ∪ (ps.map ChunkPayload.chunkIndex).toFinset
          = Finset.range N) := by
  induction ps generalizing s cs with
  | nil =>
    simp only [runUploadChunks, List.map_nil, List.toFinset_nil, Finset.union_empty]
    rw [if_neg hne]
    refine ⟨rfl, ?_⟩
    constructor
    · intro hc
      rw [hu] at hc
      cases hc
    · intro hc
      exact absurd hc hne
  | cons p ps ih =>
    obtain ⟨hpid, hpidx⟩ := hps p (List.mem_cons_self p ps)
    have hpstail : ∀ q ∈ ps, q.uploadId = uid ∧ q.chunkIndex < N :=
      fun q hq => hps q (List.mem_cons_of_mem p hq)
    simp only [runUploadChunks]
    have htf : ((p :: ps).map ChunkPayload.chunkIndex).toFinset
        = insert p.chunkIndex ((ps.map ChunkPayload.chunkIndex).toFinset) := by
      rw [List.map_cons, List.toFinset_cons]
    have hset : populatedSet (jsArraySet cs p.chunkIndex p.chunk)
        = insert p.chunkIndex (populatedSet cs) := populatedSet_jsArraySet cs _ _
    have hlen2 : (jsArraySet cs p.chunkIndex p.chunk).length ≤ N := by
      rw [length_jsArraySet]
      omega
    by_cases hdone : insert p.chunkIndex (populatedSet cs) = Finset.range N
    · have hcount : (populatedCount (jsArraySet cs p.chunkIndex p.chunk) == N) = true := by
        rw [populatedCount_eq_card, hset, hdone, Finset.card_range]
        simp
      obtain ⟨d, hd⟩ := bufferConcat_some_of_populated (jsArraySet cs p.chunkIndex p.chunk)
        (by
          intro j hj
          rw [← mem_populatedSet, hset, hdone, Finset.mem_range]
          omega)
      have hstep : (handleUploadChunk s sid sender p now).1.privateMessageDb.length
          = s.privateMessageDb.length + 1 ∧
          jsMapGet (handleUploadChunk s sid sender p now).1.tempUploads uid = none := by
        simp only [handleUploadChunk, hpid, hu]
        rw [if_pos hcount]
        simp only [hd]
        cases hcon : findConnection s.connectedUsers p.receiver with
        | some c =>
          simp only [hcon]
          constructor
          · rw [length_saveById, List.length_append]
            rfl
          · exact jsMapGet_delete_self _ _
        | none =>
          simp only [hcon]
          constructor
          · rw [List.length_append]
            rfl
          · exact jsMapGet_delete_self _ _
      have habs := runUploadChunks_absent ps (handleUploadChunk s sid sender p now).1
        uid sid sender now hstep.2 (fun q hq => (hpstail q hq).1)
      rw [habs]
      have hunion : populatedSet cs ∪ ((p :: ps).map ChunkPayload.chunkIndex).toFinset
          = Finset.range N := by
        rw [htf]
        apply Finset.Subset.antisymm
        · intro j hj
          rcases Finset.mem_union.mp hj with hj1 | hj1
          · exact hsub hj1
          · rcases Finset.mem_insert.mp hj1 with hj2 | hj2
            · rw [hj2]
              exact Finset.mem_range.mpr hpidx
            · rcases List.mem_map.mp (List.mem_toFinset.mp hj2) with ⟨q, hq, hqi⟩
              rw [← hqi]
              exact Finset.mem_range.mpr (hpstail q hq).2
        · intro j hj
          rw [← hdone] at hj
          rcases Finset.mem_insert.mp hj with hj1 | hj1
          · subst hj1
            exact Finset.mem_union_right _ (Finset.mem_insert_self _ _)
          · exact Finset.mem_union_left _ hj1
      rw [if_pos hunion]
      refine ⟨hstep.1, ?_⟩
      rw [hstep.2]
      exact iff_of_true rfl hunion
    · have hsub2 : insert p.chunkIndex (populatedSet cs) ⊆ Finset.range N :=
        Finset.insert_subset (Finset.mem_range.mpr hpidx) hsub
      have hcount : (populatedCount (jsArraySet cs p.chunkIndex p.chunk) == N) = false := by
        rw [populatedCount_eq_card, hset]
        have hlt : (insert p.chunkIndex (populatedSet cs)).card < N := by
          have hss : insert p.chunkIndex (populatedSet cs) ⊂ Finset.range N :=
            HasSubset.Subset.ssubset_of_ne hsub2 hdone
          have hcard := Finset.card_lt_card hss
          rwa [Finset.card_range] at hcard
        simp [Nat.ne_of_lt hlt]
      have hu2 : jsMapGet (handleUploadChunk s sid sender p now).1.tempUploads uid
          = some (UploadSession.mk (jsArraySet cs p.chunkIndex p.chunk) N) := by
        simp only [handleUploadChunk, hpid, hu]
        rw [if_neg (by rw [hcount]; exact Bool.false_ne_true)]
        exact jsMapGet_jsMapSet_self _ _ _
      have hdb : (handleUploadChunk s sid sender p now).1.privateMessageDb
          = s.privateMessageDb := by
        simp only [handleUploadChunk, hpid, hu]
        rw [if_neg (by rw [hcount]; exact Bool.false_ne_true)]
      obtain ⟨ihlen, ihsess⟩ := ih _ (jsArraySet cs p.chunkIndex p.chunk) hu2 hlen2
        (by rw [hset]; exact hsub2) (by rw [hset]; exact hdone) hpstail
      have hsets : populatedSet (jsArraySet cs p.chunkIndex p.chunk)
          ∪ (ps.map ChunkPayload.chunkIndex).toFinset
          = populatedSet cs ∪ ((p :: ps).map ChunkPayload.chunkIndex).toFinset := by
        rw [hset, htf, Finset.insert_union, Finset.union_insert]
      constructor
      · rw [← hsets, ihlen, hdb]
      · rw [← hsets]
        exact ihsess

/-- A single chunk submission creates the file-backed message only when,
after storing the incoming chunk, every index in `[0, totalChunks)`
holds a populated buffer (count-based check plus the concatenation
failing on any hole force exactly the index set `[0, N)`). -/
theorem uploadChunk_creates_only_when_populated (s : GatewayState)
    (sid sender : String) (p : ChunkPayload) (now : Nat) (upload : UploadSession)
    (hu : jsMapGet s.tempUploads p.uploadId = some upload)
    (hgrow : s.privateMessageDb.length
      < (handleUploadChunk s sid sender p now).1.privateMessageDb.length) :
    ∀ j < upload.totalChunks,
      (chunkAt (jsArraySet upload.chunks p.chunkIndex p.chunk) j).isSome = true := by
  by_cases hcount : (populatedCount (jsArraySet upload.chunks p.chunkIndex p.chunk)
      == upload.totalChunks) = true
  · cases hb : bufferConcat (jsArraySet upload.chunks p.chunkIndex p.chunk) with
    | none =>
      exfalso
      have hsame : (handleUploadChunk s sid sender p now).1.privateMessageDb
          = s.privateMessageDb := by
        simp only [handleUploadChunk, hu]
        rw [if_pos hcount]
        simp only [hb]
      rw [hsame] at hgrow
      exact Nat.lt_irrefl _ hgrow
    | some d =>
      intro j hj
      have hall := bufferConcat_some_all _ _ hb
      have hcnt := populatedCount_of_all_some _ hall
      have hceq : populatedCount (jsArraySet upload.chunks p.chunkIndex p.chunk)
          = upload.totalChunks := by simpa using hcount
      have hN : (jsArraySet upload.chunks p.chunkIndex p.chunk).length
          = upload.totalChunks := by omega
      have hj2 : j < (jsArraySet upload.chunks p.chunkIndex p.chunk).length := by omega
      unfold chunkAt
      rw [List.getElem?_eq_getElem hj2]
      have hmem : (jsArraySet upload.chunks p.chunkIndex p.chunk)[j] ∈
          jsArraySet upload.chunks p.chunkIndex p.chunk :=
        List.mem_iff_getElem.mpr ⟨j, hj2, rfl⟩
      have hsomej := List.all_eq_true.mp hall _ hmem
      cases hval : (jsArraySet upload.chunks p.chunkIndex p.chunk)[j] with
      | none =>
        rw [hval] at hsomej
        cases hsomej
      | some b => rfl
  · exfalso
    have hsame : (handleUploadChunk s sid sender p now).1.privateMessageDb
        = s.privateMessageDb := by
      simp only [handleUploadChunk, hu]
      rw [if_neg hcount]
    rw [hsame] at hgrow
    exact Nat.lt_irrefl _ hgrow

/-- Claim C1: for an upload session with `totalChunks = N`, submitting
chunks with indices below `N` in any order triggers the completion
(file assembly, message creation, session discard) exactly once, namely
exactly when the set of submitted indices covers all of `[0, N)`:
the store grows by exactly one message iff the distinct indices equal
`[0, N)` (so duplicates never cause early completion, and any order
works), the session is discarded exactly then, and — in full
generality — a submission creates a message only when every index in
`[0, totalChunks)` holds a populated buffer. -/
theorem C1_upload_completion (s : GatewayState) (uid sid sender : String)
    (now N : Nat) (ps : List ChunkPayload)
    (hu : jsMapGet s.tempUploads uid = some (UploadSession.mk [] N))
    (hN : 0 < N)
    (hps : ∀ p ∈ ps, p.uploadId = uid ∧ p.chunkIndex < N) :
    ((runUploadChunks s sid sender now ps).privateMessageDb.length
      = s.privateMessageDb.length +
        (if (ps.map ChunkPayload.chunkIndex).toFinset = Finset.range N then 1 else 0)) ∧
    (jsMapGet (runUploadChunks s sid sender now ps).tempUploads uid = none
      ↔ (ps.map ChunkPayload.chunkIndex).toFinset = Finset.range N) ∧
    (∀ (s2 : GatewayState) (p : ChunkPayload) (upload : UploadSession),
      jsMapGet s2.tempUploads p.uploadId = some upload →
      s2.privateMessageDb.length
        < (handleUploadChunk s2 sid sender p now).1.privateMessageDb.length →
      ∀ j < upload.totalChunks,
        (chunkAt (jsArraySet upload.chunks p.chunkIndex p.chunk) j).isSome = true) := by
  have hempty : populatedSet ([] : List (Option Bytes)) = (∅ : Finset Nat) := rfl
  have hne : populatedSet ([] : List (Option Bytes)) ≠ Finset.range N := by
    rw [hempty]
    intro hc
    have hcard := congrArg Finset.card hc
    rw [Finset.card_empty, Finset.card_range] at hcard
    omega
  obtain ⟨h1, h2⟩ := runUploadChunks_invariant ps s [] uid sid sender now N hu
    (Nat.zero_le N) (by rw [hempty]; exact Finset.empty_subset _) hne hps
  rw [hempty, Finset.empty_union] at h1 h2
  exact ⟨h1, h2, fun s2 p upload hu2 hgrow =>
    uploadChunk_creates_only_when_populated s2 sid sender p now upload hu2 hgrow⟩

/-- The chunk payload with index `i` of the witness upload. -/
def mkChunk (i : Nat) : ChunkPayload :=
  { uploadId := "u1", chunk := [i + 1], chunkIndex := i, receiver := "bob",
    fileName := "f.txt", fileType := "text", fileSize := 2 }

/-- State holding one fresh two-chunk upload session. -/
def c1State : GatewayState :=
  { connectedUsers := [], typingUsers := [],
    tempUploads := [("u1", UploadSession.mk [] 2)], rooms := [], userDb := [],
    roomMessageDb := [], privateMessageDb := [], files := [], nextId := 0 }

/-- Witness for C1: submitting indices 1, 1 (duplicate), 0 — reverse
order with a repeat — completes exactly once: one message is created
and the session is gone. -/
theorem C1_upload_completion_witness :
    (jsMapGet c1State.tempUploads "u1" = some (UploadSession.mk [] 2) ∧ 0 < 2 ∧
     (∀ p ∈ [mkChunk 1, mkChunk 1, mkChunk 0], p.uploadId = "u1" ∧ p.chunkIndex < 2)) ∧
    ((runUploadChunks c1State "s1" "alice" 9
        [mkChunk 1, mkChunk 1, mkChunk 0]).privateMessageDb.length
      = c1State.privateMessageDb.length +
        (if (([mkChunk 1, mkChunk 1, mkChunk 0].map ChunkPayload.chunkIndex).toFinset
            = Finset.range 2) then 1 else 0)) ∧
    (jsMapGet (runUploadChunks c1State "s1" "alice" 9
        [mkChunk 1, mkChunk 1, mkChunk 0]).tempUploads "u1" = none
      ↔ (([mkChunk 1, mkChunk 1, mkChunk 0].map ChunkPayload.chunkIndex).toFinset
          = Finset.range 2)) :=
  ⟨⟨by decide, by decide, by decide⟩,
   (C1_upload_completion c1State "u1" "s1" "alice" 9 2
      [mkChunk 1, mkChunk 1, mkChunk 0] (by decide) (by decide) (by decide)).1,
   (C1_upload_completion c1State "u1" "s1" "alice" 9 2
      [mkChunk 1, mkChunk 1, mkChunk 0] (by decide) (by decide) (by decide)).2.1⟩
